/-
Verification of the AirportCapacityCalculator simulation core.

This development shallowly embeds the Go sources of the repository
(internal/simulation/engine.go, world.go, runway_manager.go,
internal/simulation/event/queue.go and the event types,
internal/airport/runway_compatibility.go, and the wind math of
internal/simulation/policy/wind.go) and proves properties of the embedding.

Modelling conventions, used throughout:
- Go `float32`/`float64` arithmetic is modelled exactly over `ℚ`
  (no rounding).  Where the code can produce IEEE special values
  (the engine's unguarded division in `calculateWindowCapacity`), the
  computation is carried out in `GoFloat`, an extension of `ℚ` with
  `+Inf`, `-Inf` and `NaN` following the IEEE rules for the exact
  operations the code performs.
- `time.Time` / `time.Duration` values are modelled in seconds as `ℚ`
  (`t.Seconds()` is exact rational division by 1e9, so nothing is lost).
- Go maps are modelled as association lists.  Go map iteration order is
  unspecified; every property proved here is insensitive to that order,
  and the model fixes the association-list order as one admissible order.
- `math.Cos`/`math.Sin` are not computable over `ℚ`; the wind math is
  parameterised by a `Trig` structure providing the cosine and sine (in
  degrees).  All structural theorems hold for every `Trig`; concrete
  evaluations instantiate it with a table that agrees with the real
  cosine/sine at the (multiple-of-90°) angles being evaluated.
-/
import Mathlib

namespace ACC

/-! ## GoFloat: exact model of Go floating-point values

Finite values are exact rationals; `posInf`, `negInf` and `nan` model the
IEEE special values the engine can produce (division by zero in
`calculateWindowCapacity` has no guard).  The operations below follow the
IEEE-754 rules case by case; the single finite/finite case is exact
rational arithmetic instead of rounded binary arithmetic. -/
inductive GoFloat : Type
  | fin (q : ℚ)
  | posInf
  | negInf
  | nan
deriving DecidableEq, Repr

namespace GoFloat

/-- IEEE addition (exact in the finite/finite case). -/
def add : GoFloat → GoFloat → GoFloat
  | nan, _ => nan
  | _, nan => nan
  | posInf, negInf => nan
  | negInf, posInf => nan
  | posInf, _ => posInf
  | _, posInf => posInf
  | negInf, _ => negInf
  | _, negInf => negInf
  | fin a, fin b => fin (a + b)

/-- IEEE multiplication (exact in the finite/finite case);
`0 * ±Inf = NaN`. -/
def mul : GoFloat → GoFloat → GoFloat
  | nan, _ => nan
  | _, nan => nan
  | posInf, posInf => posInf
  | posInf, negInf => negInf
  | negInf, posInf => negInf
  | negInf, negInf => posInf
  | posInf, fin q => if q = 0 then nan else if 0 < q then posInf else negInf
  | fin q, posInf => if q = 0 then nan else if 0 < q then posInf else negInf
  | negInf, fin q => if q = 0 then nan else if 0 < q then negInf else posInf
  | fin q, negInf => if q = 0 then nan else if 0 < q then negInf else posInf
  | fin a, fin b => fin (a * b)

/-- IEEE division (exact in the finite/finite case); a nonzero finite
value divided by zero yields a signed infinity (Go has no negative zero
in this model), `0/0 = NaN`, `±Inf / ±Inf = NaN`. -/
def div : GoFloat → GoFloat → GoFloat
  | nan, _ => nan
  | _, nan => nan
  | posInf, posInf => nan
  | posInf, negInf => nan
  | negInf, posInf => nan
  | negInf, negInf => nan
  | posInf, fin q => if 0 ≤ q then posInf else negInf
  | negInf, fin q => if 0 ≤ q then negInf else posInf
  | fin _, posInf => fin 0
  | fin _, negInf => fin 0
  | fin a, fin b =>
    if b = 0 then (if a = 0 then nan else if 0 < a then posInf else negInf)
    else fin (a / b)

/-- IEEE strict comparison `<`; any comparison involving `NaN` is false. -/
def blt : GoFloat → GoFloat → Bool
  | nan, _ => false
  | _, nan => false
  | negInf, negInf => false
  | negInf, _ => true
  | _, negInf => false
  | posInf, _ => false
  | fin _, posInf => true
  | fin a, fin b => decide (a < b)

/-- A `GoFloat` is finite iff it is a `fin` value. -/
def isFinite : GoFloat → Bool
  | fin _ => true
  | _ => false

instance : Add GoFloat := ⟨add⟩
instance : Mul GoFloat := ⟨mul⟩
instance : Div GoFloat := ⟨div⟩

theorem add_def (a b : GoFloat) : a + b = add a b := rfl
theorem mul_def (a b : GoFloat) : a * b = mul a b := rfl
theorem div_def (a b : GoFloat) : a / b = div a b := rfl

@[simp] theorem fin_add_fin (a b : ℚ) : fin a + fin b = fin (a + b) := rfl
@[simp] theorem fin_mul_fin (a b : ℚ) : fin a * fin b = fin (a * b) := rfl

@[simp] theorem zero_add' (x : GoFloat) : fin 0 + x = x := by
  cases x <;> simp [add_def, add]

@[simp] theorem add_zero' (x : GoFloat) : x + fin 0 = x := by
  cases x <;> simp [add_def, add]

end GoFloat

/-! ## Airport data model (internal/airport/runway.go, airport.go)

Only the fields the simulation core reads are modelled; the purely
descriptive fields (name, length, surface, ...) play no role in any
claim.  `MinimumSeparation` is a `time.Duration`; it is modelled by its
exact value in seconds. -/
structure Runway : Type where
  runwayDesignation : String
  trueBearing : ℚ
  crosswindLimitKnots : ℚ
  tailwindLimitKnots : ℚ
  /-- `MinimumSeparation.Seconds()`, exact. -/
  minimumSeparation : ℚ
deriving DecidableEq, Repr

/-! ## Compatibility graph (runway_compatibility.go)

`RunwayCompatibility.CompatibleWith` is a Go `map[string][]string`,
modelled as an association list.  The Go code treats both a nil
`*RunwayCompatibility` and a nil inner map as "absent"; the model
collapses both into `Option`. -/

/-- The adjacency list `CompatibleWith`; `none` models a nil graph /
nil map ("all runways compatible"). -/
def RunwayCompatibility : Type := List (String × List String)

instance : DecidableEq RunwayCompatibility := by
  unfold RunwayCompatibility; infer_instance

/-- Go map lookup `rc.CompatibleWith[runwayID]`. -/
def mapLookup (m : RunwayCompatibility) (k : String) : Option (List String) :=
  (m.find? (fun p => p.1 == k)).map (fun p => p.2)

/-- One iteration of `Validate`'s outer loop: check the entry for runway
`rw` with compatible list `lst`.  Returns the first error found, `none`
when the entry is valid. -/
def checkEntry (m : RunwayCompatibility) (runwayIDs : List String)
    (rw : String) (lst : List String) : Option String :=
  if ¬ rw ∈ runwayIDs then
    some ("compatibility graph references non-existent runway: " ++ rw)
  else
    lst.findSome? (fun c =>
      if c = rw then none
      else if ¬ c ∈ runwayIDs then
        some ("runway " ++ rw ++ " references non-existent compatible runway: " ++ c)
      else
        match mapLookup m c with
        | none => some ("asymmetric compatibility: " ++ rw ++ " lists " ++ c
            ++ " as compatible, but " ++ c ++ " has no compatibility list")
        | some reverseList =>
          if rw ∈ reverseList then none
          else some ("asymmetric compatibility: " ++ rw ++ " lists " ++ c
            ++ " as compatible, but " ++ c ++ " does not list " ++ rw))

/-- `RunwayCompatibility.Validate(runwayIDs)`.  Returns the first error,
`none` on success.  A `none` graph is always valid. -/
def Validate (rc : Option RunwayCompatibility) (runwayIDs : List String) :
    Option String :=
  match rc with
  | none => none
  | some m =>
    match m.findSome? (fun p => checkEntry m runwayIDs p.1 p.2) with
    | some e => some e
    | none =>
      runwayIDs.findSome? (fun id =>
        match mapLookup m id with
        | none => some ("runway " ++ id ++ " is not in the compatibility graph")
        | some _ => none)

/-- `RunwayCompatibility.IsCompatible(runway1, runway2)`. -/
def IsCompatible (rc : Option RunwayCompatibility) (runway1 runway2 : String) :
    Bool :=
  match rc with
  | none => true
  | some m =>
    if runway1 = runway2 then true
    else
      match mapLookup m runway1 with
      | none => false
      | some compatibleList => runway2 ∈ compatibleList

/-- `RunwayCompatibility.GetCompatibleRunways(runwayID, allRunways)`.
(The Go function returns a defensive copy; copying is the identity
here.) -/
def GetCompatibleRunways (rc : Option RunwayCompatibility)
    (runwayID : String) (allRunways : List String) : List String :=
  match rc with
  | none => allRunways.filter (fun id => id ≠ runwayID)
  | some m =>
    match mapLookup m runwayID with
    | none => []
    | some compatibleList => compatibleList

/-! ## Wind decomposition (policy/wind.go, `CalculateWindComponents`)

The Go function uses `math.Cos`/`math.Sin` on `float64`.  Real-valued
trigonometry is not computable, so the model abstracts the two
functions into a `Trig` parameter (cosine and sine of an angle given in
degrees); every structural theorem below holds for an arbitrary `Trig`.
Concrete evaluations use `trig90`, which agrees with the real cosine
and sine at every multiple of 90° in `[-180°, 180°]` — the only
angles at which those evaluations look at the `Trig`. -/
structure Trig : Type where
  cosDeg : ℚ → ℚ
  sinDeg : ℚ → ℚ

/-- The two normalisation loops of `CalculateWindComponents`
(`for angleDiff > 180 { angleDiff -= 360 }`;
`for angleDiff < -180 { angleDiff += 360 }`) in closed form: an input
above 180 lands in `(-180, 180]`, an input below −180 lands in
`[-180, 180)`, anything already in `[-180, 180]` is unchanged. -/
def normalizeAngle (a : ℚ) : ℚ :=
  if 180 < a then a - 360 * ⌈(a - 180) / 360⌉
  else if a < -180 then a + 360 * ⌈(-180 - a) / 360⌉
  else a

/-- `CalculateWindComponents(runwayBearing, windSpeed, windDirection)`:
returns `(headwind, crosswind)`.  The degree→radian conversion of the Go
code is folded into `Trig`'s degree-based cosine/sine. -/
def CalculateWindComponents (trig : Trig)
    (runwayBearing windSpeed windDirection : ℚ) : ℚ × ℚ :=
  let angleDiff := normalizeAngle (windDirection - runwayBearing)
  (windSpeed * trig.cosDeg angleDiff, |windSpeed * trig.sinDeg angleDiff|)

/-- Cosine table used by concrete evaluations: exact values of the real
cosine at the multiples of 90° in `[-180, 180]` (the only inputs the
evaluations produce after `normalizeAngle`); `0` elsewhere. -/
def cos90 : ℚ → ℚ := fun a =>
  if a = 0 then 1 else if a = 180 ∨ a = -180 then -1 else 0

/-- Sine table used by concrete evaluations: exact values of the real
sine at the multiples of 90° in `[-180, 180]`; `0` elsewhere. -/
def sin90 : ℚ → ℚ := fun a =>
  if a = 90 then 1 else if a = -90 then -1 else 0

/-- The `Trig` instance used by concrete evaluations. -/
def trig90 : Trig := ⟨cos90, sin90⟩

/-! ## Active configuration entries (package event)

The `event.ActiveRunwayInfo` type and its enums are constructed in
runway_manager.go (`OperationType: event.Mixed`, `Direction`,
`Runway`); their declarations live in the event package.  The fields
are taken from the construction site in `calculateActiveConfiguration`
and from the spec's data model ("mapping from runway id to
{operation type, chosen direction, runway reference}"). -/

/-- Operating direction of an active runway (`event.Forward` /
`event.Reverse`). -/
inductive Direction : Type
  | forward
  | reverse
deriving DecidableEq, Repr

/-- Operation type of an active runway; the manager currently always
assigns `event.Mixed`. -/
inductive OperationType : Type
  | mixed
deriving DecidableEq, Repr

/-- `event.ActiveRunwayInfo`. -/
structure ActiveRunwayInfo : Type where
  runwayDesignation : String
  operationType : OperationType
  direction : Direction
  runway : Runway
deriving DecidableEq, Repr

/-! ## Runway manager (runway_manager.go)

The Go struct holds a mutex plus the fields below; `availableRunways`
is a `map[string]bool` modelled as an association list and
`currentConfiguration` a `map[string]*ActiveRunwayInfo` modelled
likewise.  The clique cache (`maximalCliques`,
`maximalCliquesComputed`) is kept as explicit state; the Go code
populates it lazily inside `selectMaxCapacityConfig`, a write-once
mutation whose value is the pure function `computeMaximalCliques` of
the immutable `allRunways`/`compatibility` fields, so the model reads
the cache (or computes the same value) without threading the field
update. -/
structure RunwayManager : Type where
  availableRunways : List (String × Bool)
  curfewActive : Bool
  windSpeed : ℚ
  windDirection : ℚ
  allRunways : List Runway
  currentConfiguration : List (String × ActiveRunwayInfo)
  compatibility : Option RunwayCompatibility
  maximalCliques : List (List String)
  maximalCliquesComputed : Bool

/-- `findRunwayByID`: first runway whose designation matches. -/
def findRunwayByID (rm : RunwayManager) (runwayID : String) : Option Runway :=
  rm.allRunways.find? (fun r => r.runwayDesignation == runwayID)

/-- `getAvailableRunwayIDs`: ids mapped to `true` in the availability
map (map iteration order is unspecified in Go; the model uses the
association-list order). -/
def getAvailableRunwayIDs (rm : RunwayManager) : List String :=
  (rm.availableRunways.filter (fun p => p.2)).map (fun p => p.1)

/-- `getAllRunwayIDs`. -/
def getAllRunwayIDs (rm : RunwayManager) : List String :=
  rm.allRunways.map (fun r => r.runwayDesignation)

/-- Helper `intersection(a, b)`: elements of `a` that appear in `b`,
in `a`'s order. -/
def intersection (a b : List String) : List String :=
  a.filter (fun item => item ∈ b)

/-- Helper `isSubset(subset, superset)`. -/
def isSubset (subset superset : List String) : Bool :=
  subset.all (fun item => item ∈ superset)

/-- Helper `removeElement(slice, element)`: removes the first
occurrence. -/
def removeElement (slice : List String) (element : String) : List String :=
  match slice with
  | [] => []
  | x :: xs => if x = element then xs else x :: removeElement xs element

/-- `bronKerbosch(R, P, X, result)` (classic three-set recursion).  The
Go recursion has no structural termination measure — on a compatibility
list containing an explicit self-loop it does not terminate — so the
model takes explicit fuel; `computeMaximalCliques` passes
`allRunways.length + 1`, which is sufficient for every self-loop-free
graph because each recursive call's candidate set `P ∩ N(v)` loses at
least `v`. -/
def bronKerbosch (rc : Option RunwayCompatibility) (allIDs : List String) :
    ℕ → List String → List String → List String → List (List String)
  | 0, _, _, _ => []
  | fuel + 1, R, P, X =>
    if P = [] ∧ X = [] then [R]
    else
      (P.foldl
        (fun (st : List String × List String × List (List String)) v =>
          let neighbors := GetCompatibleRunways rc v allIDs
          let newR := R ++ [v]
          let newP := intersection st.1 neighbors
          let newX := intersection st.2.1 neighbors
          (removeElement st.1 v, st.2.1 ++ [v],
            st.2.2 ++ bronKerbosch rc allIDs fuel newR newP newX))
        (P, X, [])).2.2

/-- `computeMaximalCliques`: with no compatibility graph all runways
form a single maximal clique; otherwise run Bron–Kerbosch from
`R = ∅, P = all ids, X = ∅`. -/
def computeMaximalCliques (rm : RunwayManager) : List (List String) :=
  match rm.compatibility with
  | none => [getAllRunwayIDs rm]
  | some rc =>
    bronKerbosch (some rc) (getAllRunwayIDs rm) (rm.allRunways.length + 1)
      [] (getAllRunwayIDs rm) []

/-- The clique list `selectMaxCapacityConfig` iterates: the cache if
populated, else the freshly computed cliques (which the Go code then
caches). -/
def cachedCliques (rm : RunwayManager) : List (List String) :=
  if rm.maximalCliquesComputed then rm.maximalCliques
  else computeMaximalCliques rm

/-- The body of `calculateConfigCapacity`'s loop: add
`referenceDurationSeconds / separationSeconds` (reference duration one
hour), skipping unknown ids and non-positive separations. -/
def capStep (rm : RunwayManager) (capacity : ℚ) (runwayID : String) : ℚ :=
  match findRunwayByID rm runwayID with
  | none => capacity
  | some runway =>
    if 0 < runway.minimumSeparation
    then capacity + 3600 / runway.minimumSeparation
    else capacity

/-- `calculateConfigCapacity(runwayIDs)`: fold `capStep` over the
configuration's members starting from 0. -/
def calculateConfigCapacity (rm : RunwayManager) (runwayIDs : List String) : ℚ :=
  runwayIDs.foldl (capStep rm) 0

/-- The body of `selectMaxCapacityConfig`'s clique loop: skip cliques
that are not subsets of the available set; adopt a clique when its
capacity beats the best so far, or equals it with fewer runways. -/
def selStep (rm : RunwayManager) (availableIDs : List String)
    (best : List String × ℚ) (clique : List String) : List String × ℚ :=
  if isSubset clique availableIDs then
    let capacity := calculateConfigCapacity rm clique
    if best.2 < capacity ∨ (capacity = best.2 ∧ clique.length < best.1.length)
    then (clique, capacity)
    else best
  else best

/-- `selectMaxCapacityConfig(availableIDs)`: empty input yields empty;
no compatibility graph yields all available runways; otherwise scan the
cached maximal cliques with `selStep`, starting from the nil slice and
`bestCapacity` 0. -/
def selectMaxCapacityConfig (rm : RunwayManager) (availableIDs : List String) :
    List String :=
  if availableIDs = [] then []
  else
    match rm.compatibility with
    | none => availableIDs
    | some _ =>
      ((cachedCliques rm).foldl (selStep rm availableIDs) ([], 0)).1

/-- The reciprocal operating direction: `TrueBearing + 180`, reduced by
360 when the sum reaches 360. -/
def reciprocalBearing (b : ℚ) : ℚ :=
  if 360 ≤ b + 180 then b + 180 - 360 else b + 180

/-- The per-direction usability check inlined in
`isRunwayUsableInEitherDirection` and `determineRunwayDirection`:
start from usable, clear on a crosswind-limit violation, clear on a
tailwind-limit violation (a limit of 0 means no limit). -/
def directionWithinLimits (runway : Runway) (headwind crosswind : ℚ) : Bool :=
  if 0 < runway.crosswindLimitKnots ∧ runway.crosswindLimitKnots < crosswind
  then false
  else if 0 < runway.tailwindLimitKnots ∧ headwind < -runway.tailwindLimitKnots
  then false
  else true

/-- `isRunwayUsableInEitherDirection(runway)`: forward direction first,
then the reciprocal. -/
def isRunwayUsableInEitherDirection (trig : Trig) (rm : RunwayManager)
    (runway : Runway) : Bool :=
  let fwd := CalculateWindComponents trig runway.trueBearing
    rm.windSpeed rm.windDirection
  if directionWithinLimits runway fwd.1 fwd.2 then true
  else
    let rev := CalculateWindComponents trig (reciprocalBearing runway.trueBearing)
      rm.windSpeed rm.windDirection
    directionWithinLimits runway rev.1 rev.2

/-- `filterRunwaysByWind(runwayIDs)`: calm wind keeps everything;
otherwise keep ids that resolve to a runway and either have no limits
set or are usable in at least one direction. -/
def filterRunwaysByWind (trig : Trig) (rm : RunwayManager)
    (runwayIDs : List String) : List String :=
  if rm.windSpeed = 0 then runwayIDs
  else
    runwayIDs.filter (fun runwayID =>
      match findRunwayByID rm runwayID with
      | none => false
      | some runway =>
        if runway.crosswindLimitKnots = 0 ∧ runway.tailwindLimitKnots = 0
        then true
        else isRunwayUsableInEitherDirection trig rm runway)

/-- `determineRunwayDirection(runway)`: calm wind defaults to forward;
otherwise use the single usable direction, or on a tie the direction of
maximal headwind (forward when equal). -/
def determineRunwayDirection (trig : Trig) (rm : RunwayManager)
    (runway : Runway) : Direction :=
  if rm.windSpeed = 0 then Direction.forward
  else
    let fwd := CalculateWindComponents trig runway.trueBearing
      rm.windSpeed rm.windDirection
    let rev := CalculateWindComponents trig (reciprocalBearing runway.trueBearing)
      rm.windSpeed rm.windDirection
    let forwardUsable := directionWithinLimits runway fwd.1 fwd.2
    let reverseUsable := directionWithinLimits runway rev.1 rev.2
    if forwardUsable ∧ ¬ reverseUsable then Direction.forward
    else if reverseUsable ∧ ¬ forwardUsable then Direction.reverse
    else if rev.1 ≤ fwd.1 then Direction.forward
    else Direction.reverse

/-- `calculateActiveConfiguration`: empty under curfew; otherwise wind-
filter the available ids, pick the maximum-capacity compatible
configuration, and build the id → `ActiveRunwayInfo` map (unknown ids
are skipped; operation type is always `Mixed`). -/
def calculateActiveConfiguration (trig : Trig) (rm : RunwayManager) :
    List (String × ActiveRunwayInfo) :=
  if rm.curfewActive then []
  else
    let availableIDs := getAvailableRunwayIDs rm
    let windUsableIDs := filterRunwaysByWind trig rm availableIDs
    let optimalConfig := selectMaxCapacityConfig rm windUsableIDs
    optimalConfig.filterMap (fun runwayID =>
      (findRunwayByID rm runwayID).map (fun runway =>
        (runwayID,
          { runwayDesignation := runwayID
            operationType := OperationType.mixed
            direction := determineRunwayDirection trig rm runway
            runway := runway })))

/-- Go map assignment `m[k] = v` on the availability map: overwrite the
existing entry or append a new one. -/
def mapSetBool (m : List (String × Bool)) (k : String) (v : Bool) :
    List (String × Bool) :=
  if (m.find? (fun p => p.1 == k)).isSome
  then m.map (fun p => if p.1 = k then (p.1, v) else p)
  else m ++ [(k, v)]

/-- `OnRunwayAvailable` / `OnRunwayUnavailable`: set the availability
flag and synchronously recompute the configuration.  (The lazy clique-
cache write inside the recomputation is observationally transparent and
not threaded; see the structure's docstring.) -/
def onRunwayAvailabilityChanged (trig : Trig) (rm : RunwayManager)
    (runwayID : String) (available : Bool) : RunwayManager :=
  let rm' := { rm with availableRunways := mapSetBool rm.availableRunways runwayID available }
  { rm' with currentConfiguration := calculateActiveConfiguration trig rm' }

/-- `OnCurfewChanged`. -/
def onCurfewChanged (trig : Trig) (rm : RunwayManager) (active : Bool) :
    RunwayManager :=
  let rm' := { rm with curfewActive := active }
  { rm' with currentConfiguration := calculateActiveConfiguration trig rm' }

/-- `OnWindChanged`. -/
def onWindChanged (trig : Trig) (rm : RunwayManager)
    (speedKnots directionTrue : ℚ) : RunwayManager :=
  let rm' := { rm with windSpeed := speedKnots, windDirection := directionTrue }
  { rm' with currentConfiguration := calculateActiveConfiguration trig rm' }

/-- `GetActiveConfiguration` (the deep copy is the identity in a
functional model). -/
def getActiveConfiguration (rm : RunwayManager) :
    List (String × ActiveRunwayInfo) :=
  rm.currentConfiguration

/-- `NewRunwayManager(runways, compatibility)`: all runways available,
no curfew, calm wind, empty clique cache, initial configuration
computed. -/
def NewRunwayManager (trig : Trig) (runways : List Runway)
    (compatibility : Option RunwayCompatibility) : RunwayManager :=
  let rm : RunwayManager :=
    { availableRunways := runways.map (fun r => (r.runwayDesignation, true))
      curfewActive := false
      windSpeed := 0
      windDirection := 0
      allRunways := runways
      currentConfiguration := []
      compatibility := compatibility
      maximalCliques := []
      maximalCliquesComputed := false }
  { rm with currentConfiguration := calculateActiveConfiguration trig rm }

/-! ## World state (world.go)

Times are modelled in seconds as `ℚ`; `RunwayStates` is a
`map[string]*RunwayState` modelled as an association list.  The event
queue lives outside this structure: the engine model consumes the
stream of popped events directly (see `processTimeline`). -/

/-- `RunwayState`: a runway plus its availability flag. -/
structure RunwayState : Type where
  runway : Runway
  available : Bool
deriving DecidableEq, Repr

/-- The `World` fields the simulation core reads and writes. -/
structure World : Type where
  startTime : ℚ
  endTime : ℚ
  currentTime : ℚ
  runwayStates : List (String × RunwayState)
  curfewActive : Bool
  runwayManager : RunwayManager
  activeRunwayConfiguration : List (String × ActiveRunwayInfo)
  rotationMultiplier : ℚ
  gateCapacityConstraint : ℚ
  /-- `TaxiTimeOverhead.Seconds()`, exact. -/
  taxiTimeOverhead : ℚ

/-- Go map lookup on `World.RunwayStates`. -/
def lookupRunwayState (w : World) (runwayID : String) : Option RunwayState :=
  (w.runwayStates.find? (fun p => p.1 == runwayID)).map (fun p => p.2)

/-- `World.SetRunwayAvailable`: error when the id is unknown, else flip
the flag. -/
def SetRunwayAvailable (w : World) (runwayID : String) (available : Bool) :
    Except String World :=
  match lookupRunwayState w runwayID with
  | none => Except.error ("runway " ++ runwayID ++ " not found")
  | some _ =>
    Except.ok { w with runwayStates :=
      w.runwayStates.map (fun p =>
        if p.1 = runwayID then (p.1, { p.2 with available := available }) else p) }

/-! ## Events (package event)

The event types whose `Apply` the engine can run, with their
timestamps in seconds.  `Apply` returns the mutated world together
with the list of events it scheduled (the `Notify…` paths of world.go
push an `ActiveRunwayConfigurationChangedEvent` carrying a snapshot of
the new configuration, timestamped with the notifying event's time). -/
inductive Event : Type
  | curfewStart (t : ℚ)
  | curfewEnd (t : ℚ)
  | maintenanceStart (runwayID : String) (t : ℚ)
  | maintenanceEnd (runwayID : String) (t : ℚ)
  | gateCapacityConstraint (maxMovementsPerSecond : ℚ) (t : ℚ)
  | taxiTimeAdjustment (overhead : ℚ) (t : ℚ)
  | activeRunwayConfigurationChanged
      (config : List (String × ActiveRunwayInfo)) (t : ℚ)

/-- `Event.Time()`. -/
def Event.time : Event → ℚ
  | .curfewStart t => t
  | .curfewEnd t => t
  | .maintenanceStart _ t => t
  | .maintenanceEnd _ t => t
  | .gateCapacityConstraint _ t => t
  | .taxiTimeAdjustment _ t => t
  | .activeRunwayConfigurationChanged _ t => t

/-- `World.NotifyCurfewChange`: notify the manager, then schedule a
configuration-changed event carrying the manager's new configuration. -/
def NotifyCurfewChange (trig : Trig) (w : World) (active : Bool) (t : ℚ) :
    World × List Event :=
  let rm := onCurfewChanged trig w.runwayManager active
  ({ w with runwayManager := rm },
    [Event.activeRunwayConfigurationChanged (getActiveConfiguration rm) t])

/-- `World.NotifyRunwayAvailabilityChange`. -/
def NotifyRunwayAvailabilityChange (trig : Trig) (w : World)
    (runwayID : String) (available : Bool) (t : ℚ) : World × List Event :=
  let rm := onRunwayAvailabilityChanged trig w.runwayManager runwayID available
  ({ w with runwayManager := rm },
    [Event.activeRunwayConfigurationChanged (getActiveConfiguration rm) t])

/-- `Event.Apply(world)` for each event type:
curfew events set the flag and notify; maintenance events set runway
availability (erroring on an unknown id) and notify; the gate and taxi
events delegate to the validating setters; the configuration-changed
event stores the snapshot (modelled from the spec: its declaration is
in the event package, outside the sources; the spec says it carries "a
snapshot of the new configuration" which `SetActiveRunwayConfiguration`
stores). -/
def applyEvent (trig : Trig) : Event → World → Except String (World × List Event)
  | .curfewStart t, w =>
    Except.ok (NotifyCurfewChange trig { w with curfewActive := true } true t)
  | .curfewEnd t, w =>
    Except.ok (NotifyCurfewChange trig { w with curfewActive := false } false t)
  | .maintenanceStart runwayID t, w =>
    match SetRunwayAvailable w runwayID false with
    | Except.error e => Except.error e
    | Except.ok w' =>
      Except.ok (NotifyRunwayAvailabilityChange trig w' runwayID false t)
  | .maintenanceEnd runwayID t, w =>
    match SetRunwayAvailable w runwayID true with
    | Except.error e => Except.error e
    | Except.ok w' =>
      Except.ok (NotifyRunwayAvailabilityChange trig w' runwayID true t)
  | .gateCapacityConstraint v _, w =>
    if v < 0 then Except.error "gate capacity constraint cannot be negative"
    else Except.ok ({ w with gateCapacityConstraint := v }, [])
  | .taxiTimeAdjustment d _, w =>
    if d < 0 then Except.error "taxi time overhead cannot be negative"
    else Except.ok ({ w with taxiTimeOverhead := d }, [])
  | .activeRunwayConfigurationChanged config _, w =>
    Except.ok ({ w with activeRunwayConfiguration := config }, [])

/-! ## Engine (engine.go) -/

/-- `Engine.calculateWindowCapacity(world, duration)`, computed in
`GoFloat` because the per-runway division `duration / separation` has
no zero guard.  Curfew forces 0; otherwise sum over available runways,
apply the rotation multiplier, then cap by the gate constraint
(adjusted for taxi overhead) when that is lower. -/
def calculateWindowCapacity (w : World) (durationSeconds : ℚ) : GoFloat :=
  if w.curfewActive then GoFloat.fin 0
  else
    let ds := GoFloat.fin durationSeconds
    let capacity :=
      w.runwayStates.foldl
        (fun capacity p =>
          if p.2.available
          then capacity + ds / GoFloat.fin p.2.runway.minimumSeparation
          else capacity)
        (GoFloat.fin 0)
    let capacity := capacity * GoFloat.fin w.rotationMultiplier
    if 0 < w.gateCapacityConstraint then
      let effectiveGateConstraint :=
        if 0 < w.taxiTimeOverhead then
          GoFloat.fin 1 /
            (GoFloat.fin 1 / GoFloat.fin w.gateCapacityConstraint +
              GoFloat.fin w.taxiTimeOverhead)
        else GoFloat.fin w.gateCapacityConstraint
      let gateConstrainedCapacity := effectiveGateConstraint * ds
      if GoFloat.blt gateConstrainedCapacity capacity
      then gateConstrainedCapacity
      else capacity
    else capacity

/-- Modelling weight used as the termination measure of
`processAux`: an applied event schedules at most one
configuration-changed event, which itself schedules nothing. -/
def Event.weight : Event → ℕ
  | .activeRunwayConfigurationChanged _ _ => 1
  | _ => 2

/-- Total weight of a pending event list. -/
def eventsWeight (events : List Event) : ℕ :=
  (events.map Event.weight).sum

theorem Event.weight_pos (e : Event) : 0 < e.weight := by
  cases e <;> simp [Event.weight]

theorem eventsWeight_cons (e : Event) (rest : List Event) :
    eventsWeight (e :: rest) = e.weight + eventsWeight rest := by
  simp [eventsWeight]

theorem eventsWeight_append (a b : List Event) :
    eventsWeight (a ++ b) = eventsWeight a + eventsWeight b := by
  simp [eventsWeight]

/-- Scheduled events weigh strictly less than the event that produced
them. -/
theorem applyEvent_weight (trig : Trig) (e : Event) (w w' : World)
    (sch : List Event) (h : applyEvent trig e w = Except.ok (w', sch)) :
    eventsWeight sch < e.weight := by
  cases e <;>
    simp only [applyEvent, NotifyCurfewChange, NotifyRunwayAvailabilityChange,
      Event.weight] at h ⊢
  case curfewStart =>
    cases h; simp [eventsWeight, Event.weight]
  case curfewEnd =>
    cases h; simp [eventsWeight, Event.weight]
  case maintenanceStart id t =>
    cases hs : SetRunwayAvailable w id false <;> rw [hs] at h
    · exact absurd h (by simp)
    · cases h; simp [eventsWeight, Event.weight]
  case maintenanceEnd id t =>
    cases hs : SetRunwayAvailable w id true <;> rw [hs] at h
    · exact absurd h (by simp)
    · cases h; simp [eventsWeight, Event.weight]
  case gateCapacityConstraint v t =>
    split at h
    · exact absurd h (by simp)
    · cases h; simp [eventsWeight]
  case taxiTimeAdjustment d t =>
    split at h
    · exact absurd h (by simp)
    · cases h; simp [eventsWeight]
  case activeRunwayConfigurationChanged cfg t =>
    cases h; simp [eventsWeight]

/-- The body of `Engine.processTimeline`, over the stream of popped
events (events scheduled by an `Apply` carry the applying event's
timestamp; the heap pops them before any strictly later event, and the
model places them first among equal timestamps, one of the orders the
heap admits).  Faithful to the Go loop:
- an event before the window start is skipped (`continue`) without
  integration and without being applied;
- an event strictly after the window end sets
  `previousEventTime = EndTime` and breaks, after which the final-window
  guard `previousEventTime.Before(EndTime)` is false, so the
  accumulated total is returned as is;
- otherwise the window `[previousEventTime, eventTime]` is integrated
  with the pre-event state, the event is applied (an error aborts the
  run, discarding the accumulated total), and the loop advances;
- when the queue is drained, a final window up to `EndTime` is
  integrated if `previousEventTime` is still before `EndTime`. -/
def processAux (trig : Trig) (w : World) (previousEventTime : ℚ)
    (totalCapacity : GoFloat) : List Event → Except String GoFloat
  | [] =>
    if previousEventTime < w.endTime then
      Except.ok (totalCapacity + calculateWindowCapacity w (w.endTime - previousEventTime))
    else Except.ok totalCapacity
  | e :: rest =>
    if e.time < w.startTime then
      processAux trig w previousEventTime totalCapacity rest
    else if w.endTime < e.time then
      Except.ok totalCapacity
    else
      let windowCapacity := calculateWindowCapacity w (e.time - previousEventTime)
      match h : applyEvent trig e w with
      | Except.error err => Except.error err
      | Except.ok (w', scheduled) =>
        processAux trig { w' with currentTime := e.time } e.time
          (totalCapacity + windowCapacity) (scheduled ++ rest)
termination_by events => eventsWeight events
decreasing_by
  · have := Event.weight_pos e
    simp only [eventsWeight_cons]
    omega
  · have := applyEvent_weight trig e w w' scheduled h
    simp only [eventsWeight_cons, eventsWeight_append]
    omega

/-- `Engine.processTimeline(world)`: run the loop from the start time
with an empty accumulator. -/
def processTimeline (trig : Trig) (w : World) (events : List Event) :
    Except String GoFloat :=
  processAux trig w w.startTime (GoFloat.fin 0) events

/-- `Engine.Calculate(world)`: logs aside, it returns
`processTimeline`'s result; the Go signature's `(0, err)` error case is
the `Except.error` case here. -/
def EngineCalculate (trig : Trig) (w : World) (events : List Event) :
    Except String GoFloat :=
  processTimeline trig w events

/-! ## Claim C1: the window-capacity formula -/

/-- Left-fold sum of a list of `GoFloat`s (the order the engine's loop
accumulates in). -/
def goSum (l : List GoFloat) : GoFloat :=
  l.foldl GoFloat.add (GoFloat.fin 0)

/-- The window-capacity figure as the spec states it (written from the
spec's words, to be compared with `calculateWindowCapacity`): 0 under
curfew; otherwise the sum over every available runway of
`duration_seconds / separation_seconds`, multiplied by the rotation
efficiency multiplier; when a gate ceiling `g > 0` is set, capped at
`effective * duration_seconds` with
`effective = 1 / (1/g + taxiOverheadSeconds)` when a taxi overhead is
configured and `effective = g` otherwise, the cap applying only when it
is lower than the runway-derived figure. -/
def specWindowCapacity (w : World) (durationSeconds : ℚ) : GoFloat :=
  if w.curfewActive then GoFloat.fin 0
  else
    let runwayFigure :=
      goSum ((((w.runwayStates.map (fun p => p.2)).filter
          (fun rs => rs.available)).map
        (fun rs => GoFloat.fin durationSeconds /
          GoFloat.fin rs.runway.minimumSeparation)))
      * GoFloat.fin w.rotationMultiplier
    if 0 < w.gateCapacityConstraint then
      let effective :=
        if 0 < w.taxiTimeOverhead then
          GoFloat.fin 1 /
            (GoFloat.fin 1 / GoFloat.fin w.gateCapacityConstraint +
              GoFloat.fin w.taxiTimeOverhead)
        else GoFloat.fin w.gateCapacityConstraint
      let cap := effective * GoFloat.fin durationSeconds
      if GoFloat.blt cap runwayFigure then cap else runwayFigure
    else runwayFigure

theorem foldl_avail_eq_goSum (ds : GoFloat) (l : List (String × RunwayState))
    (acc : GoFloat) :
    l.foldl
      (fun capacity p =>
        if p.2.available
        then capacity + ds / GoFloat.fin p.2.runway.minimumSeparation
        else capacity) acc
    = ((l.map (fun p => p.2)).filter (fun rs => rs.available)).foldl
        (fun capacity rs =>
          capacity + ds / GoFloat.fin rs.runway.minimumSeparation) acc := by
  induction l generalizing acc with
  | nil => rfl
  | cons p rest ih =>
    by_cases hp : p.2.available = true <;>
      simp [List.foldl_cons, List.filter_cons, hp, ih]

/-- C1.  For every world state and nonnegative window duration, the
engine's `calculateWindowCapacity` returns 0 when curfew is active and
otherwise equals the spec's figure: the sum over every available runway
of `duration_seconds / separation_seconds`, times the rotation
efficiency multiplier, capped — only when a gate ceiling `g > 0` is set
and the cap is lower — at `effective * duration_seconds` with
`effective = 1/(1/g + taxiOverheadSeconds)` when a taxi overhead is
configured and `effective = g` otherwise. -/
theorem c1_window_capacity_matches_spec (w : World) (durationSeconds : ℚ)
    (hd : 0 ≤ durationSeconds) :
    calculateWindowCapacity w durationSeconds =
      specWindowCapacity w durationSeconds := by
  unfold calculateWindowCapacity specWindowCapacity goSum
  by_cases hc : w.curfewActive = true
  · simp [hc]
  · simp only [Bool.not_eq_true] at hc
    simp only [hc, Bool.false_eq_true, if_false]
    rw [foldl_avail_eq_goSum, List.foldl_map]
    rfl

/-- Witness for C1 at a concrete world: one available runway with
60-second separation, multiplier 1, a gate ceiling with taxi overhead,
duration 120 s. -/
def runwayW1 : Runway :=
  { runwayDesignation := "09L", trueBearing := 90
    crosswindLimitKnots := 0, tailwindLimitKnots := 0
    minimumSeparation := 60 }

/-- A runway manager over `runwayW1` (wind calm, no graph). -/
def rmW1 : RunwayManager := NewRunwayManager trig90 [runwayW1] none

/-- Concrete world for the C1 witness. -/
def worldW1 : World :=
  { startTime := 0, endTime := 31536000, currentTime := 0
    runwayStates := [("09L", { runway := runwayW1, available := true })]
    curfewActive := false
    runwayManager := rmW1
    activeRunwayConfiguration := getActiveConfiguration rmW1
    rotationMultiplier := 1
    gateCapacityConstraint := 1/120
    taxiTimeOverhead := 30 }

theorem c1_witness :
    (0 : ℚ) ≤ 120 ∧
      calculateWindowCapacity worldW1 120 = specWindowCapacity worldW1 120 :=
  ⟨by norm_num, c1_window_capacity_matches_spec worldW1 120 (by norm_num)⟩

/-! ## Claim C10: no zero guard on the separation division -/

/-- A `GoFloat` that is a finite value or `+Inf` (the only values the
runway-capacity accumulation can take when the duration is positive). -/
def finOrPosInf (x : GoFloat) : Prop :=
  x = GoFloat.posInf ∨ ∃ q, x = GoFloat.fin q

theorem finOrPosInf_add {a b : GoFloat} (ha : finOrPosInf a)
    (hb : finOrPosInf b) : finOrPosInf (a + b) := by
  rcases ha with ha | ⟨qa, ha⟩ <;> rcases hb with hb | ⟨qb, hb⟩ <;>
    subst ha <;> subst hb <;>
    simp [finOrPosInf, GoFloat.add_def, GoFloat.add]

theorem posInf_add {b : GoFloat} (hb : finOrPosInf b) :
    GoFloat.posInf + b = GoFloat.posInf := by
  rcases hb with hb | ⟨qb, hb⟩ <;> subst hb <;> rfl

/-- The per-runway capacity term is finite or `+Inf` whenever the
window duration is positive. -/
theorem capacityTerm_finOrPosInf (d s : ℚ) (hd : 0 < d) :
    finOrPosInf (GoFloat.fin d / GoFloat.fin s) := by
  by_cases hs : s = 0
  · subst hs
    simp [finOrPosInf, GoFloat.div_def, GoFloat.div, hd, ne_of_gt hd]
  · simp [finOrPosInf, GoFloat.div_def, GoFloat.div, hs]

theorem capacity_foldl_finOrPosInf (d : ℚ) (hd : 0 < d)
    (l : List (String × RunwayState)) (acc : GoFloat)
    (hacc : finOrPosInf acc) :
    finOrPosInf (l.foldl
      (fun capacity p =>
        if p.2.available
        then capacity + GoFloat.fin d / GoFloat.fin p.2.runway.minimumSeparation
        else capacity) acc) := by
  induction l generalizing acc with
  | nil => exact hacc
  | cons p rest ih =>
    by_cases hp : p.2.available = true <;> simp only [List.foldl_cons, hp] <;>
      simp only [Bool.false_eq_true, if_true, if_false]
    · exact ih _ (finOrPosInf_add hacc (capacityTerm_finOrPosInf d _ hd))
    · exact ih _ hacc

/-- If some available runway in the list has zero separation, the
accumulated runway capacity is exactly `+Inf` (positive duration). -/
theorem capacity_foldl_posInf (d : ℚ) (hd : 0 < d)
    (l : List (String × RunwayState)) (acc : GoFloat)
    (hacc : finOrPosInf acc)
    (hzero : (acc = GoFloat.posInf) ∨
      ∃ p ∈ l, p.2.available = true ∧ p.2.runway.minimumSeparation = 0) :
    l.foldl
      (fun capacity p =>
        if p.2.available
        then capacity + GoFloat.fin d / GoFloat.fin p.2.runway.minimumSeparation
        else capacity) acc = GoFloat.posInf := by
  induction l generalizing acc with
  | nil =>
    rcases hzero with h | ⟨p, hp, _⟩
    · exact h
    · exact absurd hp (List.not_mem_nil p)
  | cons p rest ih =>
    have hterm := capacityTerm_finOrPosInf d p.2.runway.minimumSeparation hd
    by_cases hp : p.2.available = true <;> simp only [List.foldl_cons, hp] <;>
      simp only [Bool.false_eq_true, if_true, if_false]
    · refine ih _ (finOrPosInf_add hacc hterm) ?_
      rcases hzero with h | ⟨p', hp', hav, hsep⟩
      · subst h; exact Or.inl (posInf_add hterm)
      · rcases List.mem_cons.mp hp' with h | h
        · left
          have hsep0 : p.2.runway.minimumSeparation = 0 := by
            rw [← h]; exact hsep
          have hto : GoFloat.fin d / GoFloat.fin p.2.runway.minimumSeparation =
              GoFloat.posInf := by
            rw [hsep0]
            simp [GoFloat.div_def, GoFloat.div, ne_of_gt hd, hd]
          rw [hto]
          rcases hacc with h2 | ⟨q2, h2⟩ <;> subst h2 <;> rfl
        · exact Or.inr ⟨p', h, hav, hsep⟩
    · refine ih _ hacc ?_
      rcases hzero with h | ⟨p', hp', hav, hsep⟩
      · exact Or.inl h
      · rcases List.mem_cons.mp hp' with h | h
        · subst h; rw [hav] at hp; exact absurd rfl hp
        · exact Or.inr ⟨p', h, hav, hsep⟩

/-- Counterexample to C10 as stated: a world whose single available
runway has `MinimumSeparation = 0` but which also has a gate ceiling of
1 movement/second and no taxi overhead.  The runway-derived figure is
`+Inf`, the gate cap `1 * duration` is lower, so the engine returns the
finite value 1 for a 1-second window even though an available runway
has a non-positive separation. -/
def runwayZeroSep : Runway :=
  { runwayDesignation := "00", trueBearing := 0
    crosswindLimitKnots := 0, tailwindLimitKnots := 0
    minimumSeparation := 0 }

/-- Manager for the zero-separation worlds. -/
def rmZeroSep : RunwayManager := NewRunwayManager trig90 [runwayZeroSep] none

/-- C10 counterexample world: zero separation plus a gate ceiling. -/
def worldGateCapped : World :=
  { startTime := 0, endTime := 31536000, currentTime := 0
    runwayStates := [("00", { runway := runwayZeroSep, available := true })]
    curfewActive := false
    runwayManager := rmZeroSep
    activeRunwayConfiguration := getActiveConfiguration rmZeroSep
    rotationMultiplier := 1
    gateCapacityConstraint := 1
    taxiTimeOverhead := 0 }

/-- C10 existential world: zero separation, no gate ceiling. -/
def worldZeroSep : World :=
  { startTime := 0, endTime := 31536000, currentTime := 0
    runwayStates := [("00", { runway := runwayZeroSep, available := true })]
    curfewActive := false
    runwayManager := rmZeroSep
    activeRunwayConfiguration := getActiveConfiguration rmZeroSep
    rotationMultiplier := 1
    gateCapacityConstraint := 0
    taxiTimeOverhead := 0 }

/-- Counterexample to C10 as stated: the claim's necessity direction
("yields a finite capacity only under the precondition that every
available runway has a positive MinimumSeparation") fails — at
`worldGateCapped` (curfew inactive, duration 1 s) the result is the
finite value 1, yet the available runway's separation is 0: the gate
ceiling caps the infinite runway-derived figure to a finite one. -/
theorem c10_counterexample :
    (calculateWindowCapacity worldGateCapped 1).isFinite = true ∧
      ∃ p ∈ worldGateCapped.runwayStates, p.2.available = true ∧
        ¬ 0 < p.2.runway.minimumSeparation := by
  constructor
  · norm_num [calculateWindowCapacity, worldGateCapped, runwayZeroSep,
      GoFloat.div_def, GoFloat.div, GoFloat.mul_def, GoFloat.mul,
      GoFloat.add_def, GoFloat.add, GoFloat.blt, GoFloat.isFinite]
  · exact ⟨("00", { runway := runwayZeroSep, available := true }),
      by simp [worldGateCapped], rfl, by norm_num [runwayZeroSep]⟩

/-- C10 (amended).  The engine's window-capacity computation divides by
each available runway's MinimumSeparation with no zero guard: at
`worldZeroSep` (available runway with separation 0, curfew inactive,
duration 1 > 0, no gate ceiling) it returns `+Inf` rather than an
error; and whenever curfew is inactive, no gate-capacity ceiling is set
and the duration is positive, a finite result forces every available
runway's MinimumSeparation to be nonzero. -/
theorem c10_no_zero_guard_amended :
    calculateWindowCapacity worldZeroSep 1 = GoFloat.posInf ∧
      ∀ (w : World) (durationSeconds : ℚ), 0 < durationSeconds →
        w.curfewActive = false →
        ¬ 0 < w.gateCapacityConstraint →
        (calculateWindowCapacity w durationSeconds).isFinite = true →
        ∀ p ∈ w.runwayStates, p.2.available = true →
          p.2.runway.minimumSeparation ≠ 0 := by
  constructor
  · norm_num [calculateWindowCapacity, worldZeroSep, runwayZeroSep,
      GoFloat.div_def, GoFloat.div, GoFloat.mul_def, GoFloat.mul,
      GoFloat.add_def, GoFloat.add, GoFloat.blt]
  · intro w d hd hc hg hfin p hp hav hsep
    unfold calculateWindowCapacity at hfin
    rw [hc] at hfin
    simp only [Bool.false_eq_true, if_false, if_neg hg] at hfin
    rw [capacity_foldl_posInf d hd w.runwayStates (GoFloat.fin 0)
      (Or.inr ⟨0, rfl⟩) (Or.inr ⟨p, hp, hav, hsep⟩)] at hfin
    by_cases hm : w.rotationMultiplier = 0
    · simp [GoFloat.mul_def, GoFloat.mul, GoFloat.isFinite, hm] at hfin
    · by_cases hm' : 0 < w.rotationMultiplier <;>
        simp [GoFloat.mul_def, GoFloat.mul, GoFloat.isFinite, hm, hm'] at hfin

/-- World used by the C10 witness: one available 60-second runway, no
curfew, no gate ceiling, no taxi overhead. -/
def worldSixtySep : World :=
  { startTime := 0, endTime := 31536000, currentTime := 0
    runwayStates := [("09L", { runway := runwayW1, available := true })]
    curfewActive := false
    runwayManager := rmW1
    activeRunwayConfiguration := getActiveConfiguration rmW1
    rotationMultiplier := 1
    gateCapacityConstraint := 0
    taxiTimeOverhead := 0 }

theorem c10_witness :
    (0 : ℚ) < 1 ∧ worldSixtySep.curfewActive = false ∧
      ¬ 0 < worldSixtySep.gateCapacityConstraint ∧
      (calculateWindowCapacity worldSixtySep 1).isFinite = true ∧
      (∀ p ∈ worldSixtySep.runwayStates, p.2.available = true →
        p.2.runway.minimumSeparation ≠ 0) :=
  ⟨by norm_num, rfl, by norm_num [worldSixtySep],
    by norm_num [calculateWindowCapacity, worldSixtySep, runwayW1,
      GoFloat.div_def, GoFloat.div, GoFloat.mul_def, GoFloat.mul,
      GoFloat.add_def, GoFloat.add, GoFloat.isFinite],
    c10_no_zero_guard_amended.2 worldSixtySep 1 (by norm_num) rfl
      (by norm_num [worldSixtySep])
      (by norm_num [calculateWindowCapacity, worldSixtySep, runwayW1,
        GoFloat.div_def, GoFloat.div, GoFloat.mul_def, GoFloat.mul,
        GoFloat.add_def, GoFloat.add, GoFloat.isFinite])⟩

/-! ## Claim C2: the final-window integration -/

/-- World for the C2 failing input: window `[0, 100]`, one available
runway with 1-second separation and no other constraints.  With no
events the run integrates the full window (capacity 100); with a single
event at `t = 150` — strictly after the window end — the loop sets
`previousEventTime = EndTime` before breaking, the final-window guard
`previousEventTime.Before(EndTime)` is then false, and the interval
from the last applied event (here the start) to the window end
contributes nothing. -/
def runwayOneSep : Runway :=
  { runwayDesignation := "18", trueBearing := 180
    crosswindLimitKnots := 0, tailwindLimitKnots := 0
    minimumSeparation := 1 }

/-- Manager for `worldShort`. -/
def rmOneSep : RunwayManager := NewRunwayManager trig90 [runwayOneSep] none

/-- C2 failing-input world (window `[0, 100]`). -/
def worldShort : World :=
  { startTime := 0, endTime := 100, currentTime := 0
    runwayStates := [("18", { runway := runwayOneSep, available := true })]
    curfewActive := false
    runwayManager := rmOneSep
    activeRunwayConfiguration := getActiveConfiguration rmOneSep
    rotationMultiplier := 1
    gateCapacityConstraint := 0
    taxiTimeOverhead := 0 }

/-- C2 (code bug).  Evaluating the engine at the failing input: a run
of `worldShort` with no events returns the full window's capacity 100,
but the same run with one event at `t = 150` (after the window end)
returns 0 — the loop's after-end branch sets
`previousEventTime = EndTime` before breaking (despite its own comment
"Put it back for final window calculation"), so the final integration
the claim describes never happens and the last window's capacity is
dropped. -/
theorem c2_final_window_dropped :
    processTimeline trig90 worldShort [] = Except.ok (GoFloat.fin 100) ∧
      processTimeline trig90 worldShort [Event.curfewStart 150] =
        Except.ok (GoFloat.fin 0) := by
  constructor
  · norm_num [processTimeline, processAux, worldShort, runwayOneSep,
      calculateWindowCapacity, GoFloat.div_def, GoFloat.div,
      GoFloat.mul_def, GoFloat.mul, GoFloat.add_def, GoFloat.add]
  · norm_num [processTimeline, processAux, worldShort, Event.time]

/-! ## Claim C3: the engine reads availability flags, not the active
configuration -/

/-- Runway for the C3 failing input: bearing 0 (runway 36), a 5-knot
crosswind limit and 60-second separation. -/
def runway36 : Runway :=
  { runwayDesignation := "36", trueBearing := 0
    crosswindLimitKnots := 5, tailwindLimitKnots := 5
    minimumSeparation := 60 }

/-- Manager for the C3 failing input: runway 36 with a direct 20-knot
crosswind (wind from 090°), which exceeds the 5-knot limit in both
operating directions, so the wind filter removes the runway and the
selector's recomputed active configuration is empty. -/
def rmWindy : RunwayManager :=
  onWindChanged trig90 (NewRunwayManager trig90 [runway36] none) 20 90

/-- C3 failing-input world: the runway's availability flag is still
true while the selector's configuration excludes it. -/
def worldWindy : World :=
  { startTime := 0, endTime := 31536000, currentTime := 0
    runwayStates := [("36", { runway := runway36, available := true })]
    curfewActive := false
    runwayManager := rmWindy
    activeRunwayConfiguration := getActiveConfiguration rmWindy
    rotationMultiplier := 1
    gateCapacityConstraint := 0
    taxiTimeOverhead := 0 }

/-- C3 (code bug).  Evaluating the code at the failing input: the
runway selector's active configuration for `worldWindy` is empty (the
20-knot crosswind exceeds the 5-knot limit in both directions), yet
`calculateWindowCapacity` — which iterates the legacy `RunwayStates`
availability flags and never consults the active configuration —
counts the wind-excluded runway's full throughput: a 60-second window
yields capacity 1 instead of the 0 the claim (and the code's own
"single source of truth" comments) require. -/
theorem c3_engine_ignores_selector :
    getActiveConfiguration worldWindy.runwayManager = [] ∧
      worldWindy.activeRunwayConfiguration = [] ∧
      lookupRunwayState worldWindy "36" =
        some { runway := runway36, available := true } ∧
      calculateWindowCapacity worldWindy 60 = GoFloat.fin 1 := by
  refine ⟨?_, ?_, rfl, ?_⟩
  · norm_num [getActiveConfiguration, worldWindy, rmWindy, onWindChanged,
      NewRunwayManager, calculateActiveConfiguration, getAvailableRunwayIDs,
      filterRunwaysByWind, isRunwayUsableInEitherDirection,
      directionWithinLimits, CalculateWindComponents, normalizeAngle,
      cos90, sin90, trig90, reciprocalBearing, findRunwayByID, runway36,
      selectMaxCapacityConfig, List.filter, List.find?]
  · norm_num [worldWindy, getActiveConfiguration, rmWindy, onWindChanged,
      NewRunwayManager, calculateActiveConfiguration, getAvailableRunwayIDs,
      filterRunwaysByWind, isRunwayUsableInEitherDirection,
      directionWithinLimits, CalculateWindComponents, normalizeAngle,
      cos90, sin90, trig90, reciprocalBearing, findRunwayByID, runway36,
      selectMaxCapacityConfig, List.filter, List.find?]
  · norm_num [calculateWindowCapacity, worldWindy, runway36,
      GoFloat.div_def, GoFloat.div, GoFloat.mul_def, GoFloat.mul,
      GoFloat.add_def, GoFloat.add]

/-! ## Claim C9: unknown runway ids abort the run -/

/-- C9.  If an applied event references a runway id not present in the
world (`SetRunwayAvailable` with an unknown id), `Apply` returns the
"not found" error, and the engine loop — whatever capacity `acc` it has
already accumulated and whatever events remain — aborts with exactly
that error, so no partially accumulated capacity is returned (the Go
`Calculate` returns the error with a capacity of zero).  The timestamp
hypotheses place the event inside the window, so the loop neither skips
it nor stops before applying it. -/
theorem c9_unknown_runway_aborts (trig : Trig) (w : World) (prev : ℚ)
    (acc : GoFloat) (rest : List Event) (runwayID : String) (t : ℚ)
    (h1 : ¬ t < w.startTime) (h2 : ¬ w.endTime < t)
    (hid : lookupRunwayState w runwayID = none) :
    applyEvent trig (Event.maintenanceStart runwayID t) w =
      Except.error ("runway " ++ runwayID ++ " not found") ∧
    processAux trig w prev acc (Event.maintenanceStart runwayID t :: rest) =
      Except.error ("runway " ++ runwayID ++ " not found") ∧
    EngineCalculate trig w (Event.maintenanceStart runwayID t :: rest) =
      Except.error ("runway " ++ runwayID ++ " not found") := by
  have happly : applyEvent trig (Event.maintenanceStart runwayID t) w =
      Except.error ("runway " ++ runwayID ++ " not found") := by
    simp [applyEvent, SetRunwayAvailable, hid]
  have hloop : ∀ (prev' : ℚ) (acc' : GoFloat),
      processAux trig w prev' acc' (Event.maintenanceStart runwayID t :: rest) =
        Except.error ("runway " ++ runwayID ++ " not found") := by
    intro prev' acc'
    rw [processAux]
    simp only [Event.time, if_neg h1, if_neg h2]
    split
    · next err heq => rw [happly] at heq; cases heq; rfl
    · next w' sch heq => rw [happly] at heq; cases heq
  exact ⟨happly, hloop prev acc,
    by simpa [EngineCalculate, processTimeline] using hloop w.startTime (GoFloat.fin 0)⟩

/-- Witness for C9: the unknown id "XX" applied inside `worldShort`'s
window at `t = 50` with capacity already accumulated. -/
theorem c9_witness :
    ¬ (50 : ℚ) < worldShort.startTime ∧ ¬ worldShort.endTime < (50 : ℚ) ∧
      lookupRunwayState worldShort "XX" = none ∧
      processAux trig90 worldShort 0 (GoFloat.fin 42)
          [Event.maintenanceStart "XX" 50] =
        Except.error ("runway " ++ "XX" ++ " not found") :=
  ⟨by norm_num [worldShort], by norm_num [worldShort],
    by decide,
    (c9_unknown_runway_aborts trig90 worldShort 0 (GoFloat.fin 42) [] "XX" 50
      (by norm_num [worldShort]) (by norm_num [worldShort])
      (by decide)).2.1⟩

/-! ## Claim C8: compatibility-graph algebra -/

/-- Unpacking a passed `checkEntry`: every non-self reference `c` of
`rw`'s list has a reverse list that contains `rw`. -/
theorem checkEntry_none_reverse (m : RunwayCompatibility)
    (ids : List String) (rw : String) (lst : List String)
    (h : checkEntry m ids rw lst = none) (c : String) (hc : c ∈ lst)
    (hne : c ≠ rw) :
    ∃ reverseList, mapLookup m c = some reverseList ∧ rw ∈ reverseList := by
  unfold checkEntry at h
  split at h
  · exact absurd h (by simp)
  · have hall := (List.findSome?_eq_none_iff.mp h) c hc
    rw [if_neg hne] at hall
    split at hall
    · exact absurd hall (by simp)
    · cases hlk : mapLookup m c <;> simp only [hlk] at hall
      · exact absurd hall (by simp)
      · next reverseList =>
        refine ⟨reverseList, rfl, ?_⟩
        by_cases hmem : rw ∈ reverseList
        · exact hmem
        · rw [if_neg hmem] at hall
          exact absurd hall (by simp)

/-- A graph accepted by `Validate` is symmetric: a one-sided edge
yields the reverse edge. -/
theorem validate_none_symm (m : RunwayCompatibility) (ids : List String)
    (hv : Validate (some m) ids = none) (a b : String)
    (hab : a ≠ b) (la : List String) (hla : mapLookup m a = some la)
    (hb : b ∈ la) :
    ∃ lb, mapLookup m b = some lb ∧ a ∈ lb := by
  simp only [Validate] at hv
  cases h1 : m.findSome? (fun p => checkEntry m ids p.1 p.2) <;>
    simp only [h1] at hv
  · obtain ⟨pa, hfind⟩ : ∃ pa, m.find? (fun p => p.1 == a) = some pa := by
      unfold mapLookup at hla
      cases hf : m.find? (fun p => p.1 == a) <;> rw [hf] at hla
      · exact absurd hla (by simp)
      · exact ⟨_, rfl⟩
    have hpa_mem := List.mem_of_find?_eq_some hfind
    have hpa_key : pa.1 = a := by
      have := List.find?_some hfind
      exact eq_of_beq this
    have hpa_val : pa.2 = la := by
      unfold mapLookup at hla
      rw [hfind] at hla
      exact Option.some_injective _ hla
    have hcheck := (List.findSome?_eq_none_iff.mp h1) pa hpa_mem
    have := checkEntry_none_reverse m ids pa.1 pa.2 hcheck b
      (by rw [hpa_val]; exact hb) (by rw [hpa_key]; exact fun h => hab h.symm)
    rw [hpa_key] at this
    exact this
  · exact absurd hv (by simp)

/-- C8.  `IsCompatible` is reflexive for every graph; an absent graph
makes every pair compatible; and over a graph accepted by `Validate`
for a runway-id set, `IsCompatible` is symmetric on that set. -/
theorem c8_iscompatible_algebra :
    (∀ (rc : Option RunwayCompatibility) (a : String),
      IsCompatible rc a a = true) ∧
    (∀ (a b : String), IsCompatible none a b = true) ∧
    (∀ (m : RunwayCompatibility) (ids : List String) (a b : String),
      Validate (some m) ids = none → a ∈ ids → b ∈ ids →
      IsCompatible (some m) a b = IsCompatible (some m) b a) := by
  refine ⟨?_, fun a b => rfl, ?_⟩
  · intro rc a
    cases rc <;> simp [IsCompatible]
  · intro m ids a b hv ha hb
    by_cases hab : a = b
    · subst hab; rfl
    · have key : ∀ x y : String, x ≠ y →
          IsCompatible (some m) x y = true →
          IsCompatible (some m) y x = true := by
        intro x y hxy hxc
        simp only [IsCompatible] at hxc ⊢
        rw [if_neg hxy] at hxc
        rw [if_neg (Ne.symm hxy)]
        cases hlk : mapLookup m x <;> rw [hlk] at hxc
        · exact absurd hxc (by simp)
        · next lx =>
          have hmem : y ∈ lx := by simpa using hxc
          obtain ⟨ly, hly, hxly⟩ := validate_none_symm m ids hv x y hxy lx hlk hmem
          rw [hly]
          simpa using hxly
      cases hcab : IsCompatible (some m) a b
      · cases hcba : IsCompatible (some m) b a
        · rfl
        · rw [key b a (Ne.symm hab) hcba] at hcab
          exact absurd hcab (by simp)
      · rw [key a b hab hcab]

/-- Witness graph for C8: A–B compatible, C isolated. -/
def graphABC : RunwayCompatibility :=
  [("A", ["B"]), ("B", ["A"]), ("C", [])]

theorem c8_witness :
    Validate (some graphABC) ["A", "B", "C"] = none ∧
      "A" ∈ ["A", "B", "C"] ∧ "B" ∈ ["A", "B", "C"] ∧
      IsCompatible (some graphABC) "A" "B" =
        IsCompatible (some graphABC) "B" "A" :=
  ⟨by decide, by decide, by decide,
    c8_iscompatible_algebra.2.2 graphABC ["A", "B", "C"] "A" "B"
      (by decide) (by decide) (by decide)⟩

/-! ## Claim C5: the wind filter -/

/-- Direction usability as the claim states it (written from the spec's
words): with `(headwind, crosswind)` the wind components for the
direction's bearing, the direction is usable iff the crosswind limit is
0 or the crosswind is within it, and the tailwind limit is 0 or the
tailwind `-headwind` is within it. -/
def specDirectionUsable (trig : Trig) (windSpeed windDirection : ℚ)
    (runway : Runway) (bearing : ℚ) : Prop :=
  let c := CalculateWindComponents trig bearing windSpeed windDirection
  (runway.crosswindLimitKnots = 0 ∨ c.2 ≤ runway.crosswindLimitKnots) ∧
    (runway.tailwindLimitKnots = 0 ∨ -c.1 ≤ runway.tailwindLimitKnots)

/-- The code's per-direction check agrees with the claim's formula when
the limits are nonnegative. -/
theorem directionWithinLimits_iff (runway : Runway) (headwind crosswind : ℚ)
    (hxl : 0 ≤ runway.crosswindLimitKnots)
    (htl : 0 ≤ runway.tailwindLimitKnots) :
    directionWithinLimits runway headwind crosswind = true ↔
      ((runway.crosswindLimitKnots = 0 ∨
          crosswind ≤ runway.crosswindLimitKnots) ∧
        (runway.tailwindLimitKnots = 0 ∨
          -headwind ≤ runway.tailwindLimitKnots)) := by
  unfold directionWithinLimits
  constructor
  · intro h
    split at h
    · exact absurd h (by simp)
    · split at h
      · exact absurd h (by simp)
      · next hcw htw =>
        push_neg at hcw htw
        constructor
        · rcases eq_or_lt_of_le hxl with h0 | h0
          · exact Or.inl h0.symm
          · exact Or.inr (hcw h0)
        · rcases eq_or_lt_of_le htl with h0 | h0
          · exact Or.inl h0.symm
          · have := htw h0
            exact Or.inr (by linarith)
  · rintro ⟨hc, ht⟩
    rw [if_neg, if_neg]
    · rintro ⟨htl0, hhw⟩
      rcases ht with h0 | h0
      · exact absurd h0 (ne_of_gt htl0)
      · linarith
    · rintro ⟨hxl0, hcw⟩
      rcases hc with h0 | h0
      · exact absurd h0 (ne_of_gt hxl0)
      · linarith

/-- C5.  A runway (with nonnegative limits, as limits are magnitudes)
appearing in the filtered id list is retained by `filterRunwaysByWind`
iff at least one of its two operating directions — its true bearing or
the 180°-reciprocal — is usable under the claim's formula: crosswind
within the crosswind limit (0 = no limit) and tailwind within the
tailwind limit (0 = no limit). -/
theorem c5_wind_filter_iff (trig : Trig) (rm : RunwayManager)
    (ids : List String) (runwayID : String) (r : Runway)
    (hfind : findRunwayByID rm runwayID = some r)
    (hxl : 0 ≤ r.crosswindLimitKnots) (htl : 0 ≤ r.tailwindLimitKnots)
    (hmem : runwayID ∈ ids) :
    runwayID ∈ filterRunwaysByWind trig rm ids ↔
      (specDirectionUsable trig rm.windSpeed rm.windDirection r
          r.trueBearing ∨
        specDirectionUsable trig rm.windSpeed rm.windDirection r
          (reciprocalBearing r.trueBearing)) := by
  unfold filterRunwaysByWind
  by_cases hws : rm.windSpeed = 0
  · rw [if_pos hws]
    constructor
    · intro _
      left
      unfold specDirectionUsable CalculateWindComponents
      rw [hws]
      constructor
      · rcases eq_or_lt_of_le hxl with h0 | h0
        · exact Or.inl h0.symm
        · refine Or.inr ?_
          simpa using hxl
      · rcases eq_or_lt_of_le htl with h0 | h0
        · exact Or.inl h0.symm
        · refine Or.inr ?_
          simpa using htl
    · intro _
      exact hmem
  · rw [if_neg hws]
    rw [List.mem_filter]
    have husable : isRunwayUsableInEitherDirection trig rm r = true ↔
        (specDirectionUsable trig rm.windSpeed rm.windDirection r
            r.trueBearing ∨
          specDirectionUsable trig rm.windSpeed rm.windDirection r
            (reciprocalBearing r.trueBearing)) := by
      unfold isRunwayUsableInEitherDirection
      simp only [specDirectionUsable]
      by_cases hf : directionWithinLimits r
          (CalculateWindComponents trig r.trueBearing
            rm.windSpeed rm.windDirection).1
          (CalculateWindComponents trig r.trueBearing
            rm.windSpeed rm.windDirection).2 = true
      · rw [if_pos hf]
        constructor
        · intro _
          exact Or.inl ((directionWithinLimits_iff r _ _ hxl htl).mp hf)
        · intro _
          rfl
      · rw [if_neg hf]
        rw [directionWithinLimits_iff r _ _ hxl htl]
        rw [directionWithinLimits_iff r _ _ hxl htl] at hf
        constructor
        · intro h
          exact Or.inr h
        · rintro (h | h)
          · exact absurd h hf
          · exact h
    constructor
    · rintro ⟨_, hpred⟩
      simp only [hfind] at hpred
      split at hpred
      · next hboth =>
        left
        unfold specDirectionUsable
        exact ⟨Or.inl hboth.1, Or.inl hboth.2⟩
      · exact husable.mp hpred
    · intro h
      refine ⟨hmem, ?_⟩
      simp only [hfind]
      split
      · rfl
      · exact husable.mpr h

/-- Witness runway for C5: runway 09 (bearing 90) with a 10-knot
crosswind limit and a 5-knot tailwind limit. -/
def runway09 : Runway :=
  { runwayDesignation := "09", trueBearing := 90
    crosswindLimitKnots := 10, tailwindLimitKnots := 5
    minimumSeparation := 60 }

/-- Witness manager for C5: wind 20 knots straight down runway 09. -/
def rmHeadwind : RunwayManager :=
  { availableRunways := [("09", true)]
    curfewActive := false
    windSpeed := 20
    windDirection := 90
    allRunways := [runway09]
    currentConfiguration := []
    compatibility := none
    maximalCliques := []
    maximalCliquesComputed := false }

theorem c5_witness :
    findRunwayByID rmHeadwind "09" = some runway09 ∧
      (0 : ℚ) ≤ runway09.crosswindLimitKnots ∧
      (0 : ℚ) ≤ runway09.tailwindLimitKnots ∧
      "09" ∈ ["09"] ∧
      ("09" ∈ filterRunwaysByWind trig90 rmHeadwind ["09"] ↔
        (specDirectionUsable trig90 rmHeadwind.windSpeed
            rmHeadwind.windDirection runway09 runway09.trueBearing ∨
          specDirectionUsable trig90 rmHeadwind.windSpeed
            rmHeadwind.windDirection runway09
            (reciprocalBearing runway09.trueBearing))) :=
  ⟨by decide, by norm_num [runway09], by norm_num [runway09], by decide,
    c5_wind_filter_iff trig90 rmHeadwind ["09"] "09" runway09
      (by decide) (by norm_num [runway09]) (by norm_num [runway09])
      (by decide)⟩

/-! ## Claim C6: the no-graph case -/

/-- Runways for the C6 counterexample. -/
def runwayR1 : Runway :=
  { runwayDesignation := "R1", trueBearing := 90
    crosswindLimitKnots := 0, tailwindLimitKnots := 0
    minimumSeparation := 60 }

/-- Second runway for the C6 counterexample. -/
def runwayR2 : Runway :=
  { runwayDesignation := "R2", trueBearing := 90
    crosswindLimitKnots := 0, tailwindLimitKnots := 0
    minimumSeparation := 60 }

/-- C6 counterexample manager: no compatibility graph, calm wind, no
curfew, `R2` unavailable. -/
def rmOneUnavailable : RunwayManager :=
  { availableRunways := [("R1", true), ("R2", false)]
    curfewActive := false
    windSpeed := 0
    windDirection := 0
    allRunways := [runwayR1, runwayR2]
    currentConfiguration := []
    compatibility := none
    maximalCliques := []
    maximalCliquesComputed := false }

/-- Counterexample to C6 as stated: with no compatibility graph and
`R2` unavailable, the all-runways clique `["R1","R2"]` (the only cached
maximal clique) is not a subset of the wind-filtered available set
`["R1"]`, yet the recomputed active configuration is not empty — the
no-graph branch of `selectMaxCapacityConfig` returns every available
runway without consulting the clique cache, contradicting the claimed
"same subset rule as the graph-present case ... otherwise the active
configuration is empty". -/
theorem c6_counterexample :
    computeMaximalCliques rmOneUnavailable = [["R1", "R2"]] ∧
      isSubset (getAllRunwayIDs rmOneUnavailable)
        (filterRunwaysByWind trig90 rmOneUnavailable
          (getAvailableRunwayIDs rmOneUnavailable)) = false ∧
      calculateActiveConfiguration trig90 rmOneUnavailable ≠ [] := by
  refine ⟨by decide, by decide, ?_⟩
  decide

/-- C6 (amended).  With no compatibility graph configured,
`computeMaximalCliques` yields exactly one clique holding every runway
of the airport; but the recomputation bypasses the clique cache and the
subset rule entirely: `selectMaxCapacityConfig` returns its
(wind-filtered available) argument unchanged. -/
theorem c6_no_graph_amended (rm : RunwayManager)
    (hc : rm.compatibility = none) :
    computeMaximalCliques rm = [getAllRunwayIDs rm] ∧
      ∀ availableIDs : List String,
        selectMaxCapacityConfig rm availableIDs = availableIDs := by
  constructor
  · unfold computeMaximalCliques
    rw [hc]
  · intro availableIDs
    unfold selectMaxCapacityConfig
    by_cases hids : availableIDs = []
    · rw [if_pos hids, hids]
    · rw [if_neg hids, hc]

/-- Witness for the amended C6 at the concrete manager `rmOneUnavailable`. -/
theorem c6_witness :
    rmOneUnavailable.compatibility = none ∧
      computeMaximalCliques rmOneUnavailable = [getAllRunwayIDs rmOneUnavailable] ∧
      selectMaxCapacityConfig rmOneUnavailable ["R1"] = ["R1"] :=
  ⟨rfl, (c6_no_graph_amended rmOneUnavailable rfl).1,
    (c6_no_graph_amended rmOneUnavailable rfl).2 ["R1"]⟩

/-! ## Claim C4: maximum-capacity clique selection -/

theorem capStep_ge (rm : RunwayManager) (a : ℚ) (runwayID : String) :
    a ≤ capStep rm a runwayID := by
  unfold capStep
  cases h : findRunwayByID rm runwayID <;> simp only [h]
  · exact le_refl a
  · next runway =>
    by_cases hs : 0 < runway.minimumSeparation
    · rw [if_pos hs]
      have : 0 < 3600 / runway.minimumSeparation := by positivity
      linarith
    · rw [if_neg hs]

theorem configCapacity_foldl_ge (rm : RunwayManager) (c : List String) :
    ∀ a : ℚ, a ≤ c.foldl (capStep rm) a := by
  induction c with
  | nil => intro a; exact le_refl a
  | cons id rest ih =>
    intro a
    calc a ≤ capStep rm a id := capStep_ge rm a id
      _ ≤ rest.foldl (capStep rm) (capStep rm a id) := ih _

theorem configCapacity_nonneg (rm : RunwayManager) (c : List String) :
    0 ≤ calculateConfigCapacity rm c :=
  configCapacity_foldl_ge rm c 0

/-- A nonempty clique whose members all resolve to runways with
positive separation has strictly positive capacity. -/
theorem configCapacity_pos (rm : RunwayManager) (c : List String)
    (hne : c ≠ [])
    (hmem : ∀ id ∈ c, (findRunwayByID rm id).isSome = true)
    (hsep : ∀ r ∈ rm.allRunways, 0 < r.minimumSeparation) :
    0 < calculateConfigCapacity rm c := by
  cases c with
  | nil => exact absurd rfl hne
  | cons id rest =>
    obtain ⟨r, hr⟩ := Option.isSome_iff_exists.mp
      (hmem id (List.mem_cons_self id rest))
    have hrsep : 0 < r.minimumSeparation :=
      hsep r (List.mem_of_find?_eq_some hr)
    have hstep : capStep rm 0 id = 3600 / r.minimumSeparation := by
      unfold capStep
      simp only [hr]
      rw [if_pos hrsep, zero_add]
    have hterm : 0 < 3600 / r.minimumSeparation := by positivity
    calc (0 : ℚ) < 3600 / r.minimumSeparation := hterm
      _ = capStep rm 0 id := hstep.symm
      _ ≤ rest.foldl (capStep rm) (capStep rm 0 id) :=
        configCapacity_foldl_ge rm rest _
      _ = calculateConfigCapacity rm (id :: rest) := rfl

/-- With every member resolvable to a positive-separation runway, the
code's capacity equals the plain sum of `3600 / separation` over the
members. -/
theorem configCapacity_eq_sum (rm : RunwayManager) (c : List String)
    (hmem : ∀ id ∈ c, (findRunwayByID rm id).isSome = true)
    (hsep : ∀ r ∈ rm.allRunways, 0 < r.minimumSeparation) :
    calculateConfigCapacity rm c =
      ((c.filterMap (findRunwayByID rm)).map
        (fun r => 3600 / r.minimumSeparation)).sum := by
  have go : ∀ (l : List String) (a : ℚ),
      (∀ id ∈ l, (findRunwayByID rm id).isSome = true) →
      l.foldl (capStep rm) a =
        a + ((l.filterMap (findRunwayByID rm)).map
          (fun r => 3600 / r.minimumSeparation)).sum := by
    intro l
    induction l with
    | nil => intro a _; simp
    | cons id rest ih =>
      intro a hl
      obtain ⟨r, hr⟩ := Option.isSome_iff_exists.mp
        (hl id (List.mem_cons_self id rest))
      have hrsep : 0 < r.minimumSeparation :=
        hsep r (List.mem_of_find?_eq_some hr)
      have hstep : capStep rm a id = a + 3600 / r.minimumSeparation := by
        unfold capStep
        simp only [hr]
        rw [if_pos hrsep]
      rw [List.foldl_cons, hstep,
        ih _ (fun id' h' => hl id' (List.mem_cons_of_mem id h')),
        List.filterMap_cons, hr]
      simp [add_assoc]
  unfold calculateConfigCapacity
  rw [go c 0 hmem, zero_add]

/-- Invariant of `selectMaxCapacityConfig`'s fold: either nothing with
positive capacity has been adopted yet (every subset clique seen so far
has capacity ≤ 0), or the state holds a seen subset clique of maximal
capacity, minimal length among capacity ties. -/
def SelInv (rm : RunwayManager) (ids : List String)
    (seen : List (List String)) (st : List String × ℚ) : Prop :=
  (st.1 = [] ∧ st.2 = 0 ∧
    ∀ c ∈ seen, isSubset c ids = true → calculateConfigCapacity rm c ≤ 0) ∨
  (st.1 ∈ seen ∧ isSubset st.1 ids = true ∧
    st.2 = calculateConfigCapacity rm st.1 ∧ 0 < st.2 ∧
    (∀ c ∈ seen, isSubset c ids = true →
      calculateConfigCapacity rm c ≤ st.2) ∧
    (∀ c ∈ seen, isSubset c ids = true →
      calculateConfigCapacity rm c = st.2 → st.1.length ≤ c.length))

theorem selStep_preserves (rm : RunwayManager) (ids : List String)
    (seen : List (List String)) (st : List String × ℚ)
    (clique : List String) (h : SelInv rm ids seen st) :
    SelInv rm ids (seen ++ [clique]) (selStep rm ids st clique) := by
  have hmem_ext : ∀ x : List String, x ∈ seen ++ [clique] →
      x ∈ seen ∨ x = clique := by
    intro x hx
    rcases List.mem_append.mp hx with hx | hx
    · exact Or.inl hx
    · exact Or.inr (List.mem_singleton.mp hx)
  unfold selStep
  by_cases hsub : isSubset clique ids = true
  · rw [if_pos hsub]
    set capc := calculateConfigCapacity rm clique with hcapc
    by_cases hcond : st.2 < capc ∨ (capc = st.2 ∧ clique.length < st.1.length)
    · rw [if_pos hcond]
      have hpos : 0 < capc := by
        rcases h with ⟨h1, h2, _⟩ | ⟨_, _, _, hp, _, _⟩
        · rcases hcond with hlt | ⟨_, hlen⟩
          · rw [h2] at hlt; exact hlt
          · rw [h1] at hlen; simp at hlen
        · rcases hcond with hlt | ⟨heq, _⟩
          · linarith
          · rw [heq]; exact hp
      refine Or.inr ⟨List.mem_append_right seen (List.mem_singleton.mpr rfl),
        hsub, rfl, hpos, ?_, ?_⟩
      · intro c hc hsubc
        rcases hmem_ext c hc with hc' | hc'
        · rcases h with ⟨_, _, h3⟩ | ⟨_, _, _, _, hmax, _⟩
          · have := h3 c hc' hsubc; linarith
          · have h1 := hmax c hc' hsubc
            rcases hcond with hlt | ⟨heq, _⟩
            · linarith
            · rw [heq]; exact h1
        · rw [hc']
      · intro c hc hsubc heqc
        rcases hmem_ext c hc with hc' | hc'
        · rcases h with ⟨_, _, h3⟩ | ⟨_, _, _, _, hmax, htie⟩
          · have := h3 c hc' hsubc; linarith
          · have h1 := hmax c hc' hsubc
            rcases hcond with hlt | ⟨heq, hlen⟩
            · linarith
            · have h2 := htie c hc' hsubc (by rw [heqc, heq])
              show clique.length ≤ c.length
              omega
        · rw [hc']
    · rw [if_neg hcond]
      push_neg at hcond
      obtain ⟨hle, htie2⟩ := hcond
      rcases h with ⟨h1, h2, h3⟩ | ⟨hm, hs2, hc2, hp, hmax, htie⟩
      · refine Or.inl ⟨h1, h2, ?_⟩
        intro c hc hsubc
        rcases hmem_ext c hc with hc' | hc'
        · exact h3 c hc' hsubc
        · rw [hc', ← hcapc, ← h2]; exact hle
      · refine Or.inr ⟨List.mem_append_left _ hm, hs2, hc2, hp, ?_, ?_⟩
        · intro c hc hsubc
          rcases hmem_ext c hc with hc' | hc'
          · exact hmax c hc' hsubc
          · rw [hc', ← hcapc]; exact hle
        · intro c hc hsubc heqc
          rcases hmem_ext c hc with hc' | hc'
          · exact htie c hc' hsubc heqc
          · rw [hc'] at heqc ⊢
            exact htie2 heqc
  · rw [if_neg hsub]
    rcases h with ⟨h1, h2, h3⟩ | ⟨hm, hs2, hc2, hp, hmax, htie⟩
    · refine Or.inl ⟨h1, h2, ?_⟩
      intro c hc hsubc
      rcases hmem_ext c hc with hc' | hc'
      · exact h3 c hc' hsubc
      · rw [hc'] at hsubc; exact absurd hsubc hsub
    · refine Or.inr ⟨List.mem_append_left _ hm, hs2, hc2, hp, ?_, ?_⟩
      · intro c hc hsubc
        rcases hmem_ext c hc with hc' | hc'
        · exact hmax c hc' hsubc
        · rw [hc'] at hsubc; exact absurd hsubc hsub
      · intro c hc hsubc heqc
        rcases hmem_ext c hc with hc' | hc'
        · exact htie c hc' hsubc heqc
        · rw [hc'] at hsubc; exact absurd hsubc hsub

theorem removeElement_subset (e : String) :
    ∀ (l : List String), ∀ x ∈ removeElement l e, x ∈ l := by
  intro l
  induction l with
  | nil => intro x hx; exact absurd hx (List.not_mem_nil x)
  | cons a as ih =>
    intro x hx
    unfold removeElement at hx
    by_cases h : a = e
    · rw [if_pos h] at hx
      exact List.mem_cons_of_mem a hx
    · rw [if_neg h] at hx
      rcases List.mem_cons.mp hx with h1 | h1
      · exact h1 ▸ List.mem_cons_self a as
      · exact List.mem_cons_of_mem a (ih x h1)

theorem intersection_subset (a b : List String) :
    ∀ x ∈ intersection a b, x ∈ a :=
  fun x hx => (List.mem_filter.mp hx).1

/-- Every id in a clique emitted by `bronKerbosch` comes from the
initial `R` or the candidate set `P`. -/
theorem bronKerbosch_mem (rc : Option RunwayCompatibility)
    (allIDs : List String) :
    ∀ (fuel : ℕ) (R P X : List String) (c : List String),
      c ∈ bronKerbosch rc allIDs fuel R P X →
      ∀ id ∈ c, id ∈ R ∨ id ∈ P := by
  intro fuel
  induction fuel with
  | zero =>
    intro R P X c hc
    exact absurd hc (List.not_mem_nil c)
  | succ fuel ih =>
    intro R P X c hc
    rw [bronKerbosch] at hc
    by_cases hpx : P = [] ∧ X = []
    · rw [if_pos hpx] at hc
      intro id hid
      exact Or.inl ((List.mem_singleton.mp hc) ▸ hid)
    · rw [if_neg hpx] at hc
      have key : ∀ (L : List String)
          (st : List String × List String × List (List String)),
          (∀ v ∈ L, v ∈ P) → (∀ x ∈ st.1, x ∈ P) →
          (∀ c' ∈ st.2.2, ∀ id ∈ c', id ∈ R ∨ id ∈ P) →
          ∀ c' ∈ (L.foldl
            (fun (st : List String × List String × List (List String)) v =>
              let neighbors := GetCompatibleRunways rc v allIDs
              let newR := R ++ [v]
              let newP := intersection st.1 neighbors
              let newX := intersection st.2.1 neighbors
              (removeElement st.1 v, st.2.1 ++ [v],
                st.2.2 ++ bronKerbosch rc allIDs fuel newR newP newX))
            st).2.2,
          ∀ id ∈ c', id ∈ R ∨ id ∈ P := by
        intro L
        induction L with
        | nil => intro st _ _ hst; exact hst
        | cons v L2 ihL =>
          intro st hL hst1 hst2
          rw [List.foldl_cons]
          refine ihL _ (fun v2 hv2 => hL v2 (List.mem_cons_of_mem v hv2))
            (fun x hx => hst1 x (removeElement_subset v st.1 x hx)) ?_
          intro c' hc' id hid
          rcases List.mem_append.mp hc' with h1 | h1
          · exact hst2 c' h1 id hid
          · rcases ih (R ++ [v]) _ _ c' h1 id hid with h2 | h2
            · rcases List.mem_append.mp h2 with h3 | h3
              · exact Or.inl h3
              · exact Or.inr (hL v (List.mem_cons_self v L2)
                  |> fun hv => (List.mem_singleton.mp h3) ▸ hv)
            · exact Or.inr (hst1 id (intersection_subset _ _ id h2))
      exact key P (P, X, []) (fun v hv => hv) (fun x hx => hx)
        (fun c' hc' => absurd hc' (List.not_mem_nil c')) c hc

/-- An id of the runway inventory always resolves. -/
theorem mem_allIDs_find (rm : RunwayManager) (id : String)
    (h : id ∈ getAllRunwayIDs rm) : (findRunwayByID rm id).isSome = true := by
  unfold getAllRunwayIDs at h
  obtain ⟨r, hr, rfl⟩ := List.mem_map.mp h
  unfold findRunwayByID
  rw [List.find?_isSome]
  exact ⟨r, hr, by simp⟩

/-- Every member of every clique produced by `computeMaximalCliques`
resolves to a runway of the inventory. -/
theorem computeMaximalCliques_mem (rm : RunwayManager) :
    ∀ c ∈ computeMaximalCliques rm, ∀ id ∈ c,
      (findRunwayByID rm id).isSome = true := by
  intro c hc id hid
  unfold computeMaximalCliques at hc
  cases hcompat : rm.compatibility with
  | none =>
    rw [hcompat] at hc
    exact mem_allIDs_find rm id ((List.mem_singleton.mp hc) ▸ hid)
  | some g =>
    rw [hcompat] at hc
    rcases bronKerbosch_mem (some g) (getAllRunwayIDs rm) _ [] _ [] c hc id hid
      with h | h
    · exact absurd h (List.not_mem_nil id)
    · exact mem_allIDs_find rm id h

theorem selFold_inv (rm : RunwayManager) (ids : List String) :
    ∀ (rest seen : List (List String)) (st : List String × ℚ),
      SelInv rm ids seen st →
      SelInv rm ids (seen ++ rest) (rest.foldl (selStep rm ids) st) := by
  intro rest
  induction rest with
  | nil =>
    intro seen st h
    simpa using h
  | cons c rest' ih =>
    intro seen st h
    have h2 := ih (seen ++ [c]) (selStep rm ids st c)
      (selStep_preserves rm ids seen st c h)
    rw [List.append_assoc] at h2
    simpa using h2

theorem isSubset_nil_imp (c : List String) (h : isSubset c [] = true) :
    c = [] := by
  cases c with
  | nil => rfl
  | cons x xs => simp [isSubset] at h

/-- C4.  With a compatibility graph configured, the clique cache
populated with the Bron–Kerbosch result (the only value the code ever
writes to it), and every runway of positive MinimumSeparation: when
some cached maximal clique is a subset of the (wind-filtered) available
id set, the selected configuration is such a cached clique, maximises
`calculateConfigCapacity` among them, and has minimal length among
exact capacity ties; when no cached clique is a subset, the selection
is empty; and a clique's capacity is exactly the sum of
`3600 / separation_seconds` over its members. -/
theorem c4_selector_max_capacity (rm : RunwayManager)
    (g : RunwayCompatibility) (ids : List String)
    (hg : rm.compatibility = some g)
    (hcached : rm.maximalCliquesComputed = true)
    (hcache : rm.maximalCliques = computeMaximalCliques rm)
    (hsep : ∀ r ∈ rm.allRunways, 0 < r.minimumSeparation) :
    ((∃ c ∈ rm.maximalCliques, isSubset c ids = true) →
      selectMaxCapacityConfig rm ids ∈ rm.maximalCliques ∧
        isSubset (selectMaxCapacityConfig rm ids) ids = true ∧
        (∀ c ∈ rm.maximalCliques, isSubset c ids = true →
          calculateConfigCapacity rm c ≤
            calculateConfigCapacity rm (selectMaxCapacityConfig rm ids)) ∧
        (∀ c ∈ rm.maximalCliques, isSubset c ids = true →
          calculateConfigCapacity rm c =
            calculateConfigCapacity rm (selectMaxCapacityConfig rm ids) →
          (selectMaxCapacityConfig rm ids).length ≤ c.length)) ∧
    ((¬ ∃ c ∈ rm.maximalCliques, isSubset c ids = true) →
      selectMaxCapacityConfig rm ids = []) ∧
    (∀ c ∈ rm.maximalCliques, calculateConfigCapacity rm c =
      ((c.filterMap (findRunwayByID rm)).map
        (fun r => 3600 / r.minimumSeparation)).sum) := by
  have hmem : ∀ c ∈ rm.maximalCliques, ∀ id ∈ c,
      (findRunwayByID rm id).isSome = true := by
    rw [hcache]
    exact computeMaximalCliques_mem rm
  have hinv : SelInv rm ids rm.maximalCliques
      (rm.maximalCliques.foldl (selStep rm ids) ([], 0)) := by
    have h0 : SelInv rm ids [] (([], 0) : List String × ℚ) :=
      Or.inl ⟨rfl, rfl, by simp⟩
    simpa using selFold_inv rm ids rm.maximalCliques [] ([], 0) h0
  refine ⟨?_, ?_, ?_⟩
  · rintro ⟨c0, hc0, hsub0⟩
    by_cases hids : ids = []
    · subst hids
      have hc0nil : c0 = [] := isSubset_nil_imp c0 hsub0
      subst hc0nil
      have hres : selectMaxCapacityConfig rm [] = [] := by
        unfold selectMaxCapacityConfig
        rw [if_pos rfl]
      rw [hres]
      refine ⟨hc0, rfl, ?_, ?_⟩
      · intro c hc hsubc
        rw [isSubset_nil_imp c hsubc]
      · intro c _ _ _
        exact Nat.zero_le _
    · have hres : selectMaxCapacityConfig rm ids =
          (rm.maximalCliques.foldl (selStep rm ids) ([], 0)).1 := by
        unfold selectMaxCapacityConfig
        rw [if_neg hids]
        simp only [hg, cachedCliques, if_pos hcached]
      rw [hres]
      rcases hinv with ⟨hb1, _, hb3⟩ | ⟨hm, hsubb, hcap, _, hmax, htie⟩
      · by_cases hc0nil : c0 = []
        · subst hc0nil
          rw [hb1]
          refine ⟨hc0, rfl, ?_, ?_⟩
          · intro c hc hsubc
            have := hb3 c hc hsubc
            have h0 : calculateConfigCapacity rm ([] : List String) = 0 := rfl
            rw [h0]
            exact this
          · intro c _ _ _
            exact Nat.zero_le _
        · exfalso
          have hpos := configCapacity_pos rm c0 hc0nil (hmem c0 hc0) hsep
          have := hb3 c0 hc0 hsub0
          linarith
      · refine ⟨hm, hsubb, ?_, ?_⟩
        · intro c hc hsubc
          have := hmax c hc hsubc
          rw [← hcap]
          exact this
        · intro c hc hsubc heq
          exact htie c hc hsubc (by rw [heq, ← hcap])
  · intro hnone
    by_cases hids : ids = []
    · unfold selectMaxCapacityConfig
      rw [if_pos hids]
    · have hres : selectMaxCapacityConfig rm ids =
          (rm.maximalCliques.foldl (selStep rm ids) ([], 0)).1 := by
        unfold selectMaxCapacityConfig
        rw [if_neg hids]
        simp only [hg, cachedCliques, if_pos hcached]
      rw [hres]
      rcases hinv with ⟨hb1, _, _⟩ | ⟨hm, hsubb, _, _, _, _⟩
      · exact hb1
      · exact absurd ⟨_, hm, hsubb⟩ hnone
  · intro c hc
    exact configCapacity_eq_sum rm c (hmem c hc) hsep

/-- Witness runways for C4: parallel pair A, B (compatible) versus
crossing runway C (isolated in the graph). -/
def runwayA : Runway :=
  { runwayDesignation := "A", trueBearing := 90
    crosswindLimitKnots := 0, tailwindLimitKnots := 0
    minimumSeparation := 60 }

/-- Second parallel runway for the C4 witness. -/
def runwayB : Runway :=
  { runwayDesignation := "B", trueBearing := 90
    crosswindLimitKnots := 0, tailwindLimitKnots := 0
    minimumSeparation := 90 }

/-- Crossing runway for the C4 witness. -/
def runwayC : Runway :=
  { runwayDesignation := "C", trueBearing := 45
    crosswindLimitKnots := 0, tailwindLimitKnots := 0
    minimumSeparation := 40 }

/-- Witness manager for C4, its clique cache populated with the two
maximal cliques of the A–B / C graph. -/
def rmCliques : RunwayManager :=
  { availableRunways := [("A", true), ("B", true), ("C", true)]
    curfewActive := false
    windSpeed := 0
    windDirection := 0
    allRunways := [runwayA, runwayB, runwayC]
    currentConfiguration := []
    compatibility := some [("A", ["B"]), ("B", ["A"]), ("C", [])]
    maximalCliques := [["A", "B"], ["C"]]
    maximalCliquesComputed := true }

theorem c4_witness :
    (∃ c ∈ rmCliques.maximalCliques, isSubset c ["A", "B", "C"] = true) ∧
      selectMaxCapacityConfig rmCliques ["A", "B", "C"] ∈
        rmCliques.maximalCliques ∧
      isSubset (selectMaxCapacityConfig rmCliques ["A", "B", "C"])
        ["A", "B", "C"] = true :=
  ⟨by decide,
    ((c4_selector_max_capacity rmCliques [("A", ["B"]), ("B", ["A"]), ("C", [])]
        ["A", "B", "C"] rfl rfl (by decide) (by decide)).1 (by decide)).1,
    (((c4_selector_max_capacity rmCliques [("A", ["B"]), ("B", ["A"]), ("C", [])]
        ["A", "B", "C"] rfl rfl (by decide) (by decide)).1 (by decide)).2).1⟩

/-! ## Claim C7: the event queue (event/queue.go)

`EventQueue` wraps a `container/heap` binary min-heap of events keyed
by timestamp (`eventHeap.Less i j = h[i].Time().Before(h[j].Time())`).
Only the timestamp and the event's identity matter to the queue, so
elements are modelled as a timestamp (ns, `ℤ`) plus an opaque payload
tag.  `up`/`down` are the Go standard library's sift procedures, which
`heap.Push`/`heap.Pop` combine with the `eventHeap` slice methods
(append / remove-last / index swap). -/
structure QEvent : Type where
  time : ℤ
  tag : ℕ
deriving DecidableEq, Repr

/-- `eventHeap.Less`: strictly earlier timestamp. -/
def heapLess (a b : QEvent) : Bool :=
  decide (a.time < b.time)

theorem heapLess_false_iff (a b : QEvent) :
    heapLess a b = false ↔ b.time ≤ a.time := by
  simp [heapLess, not_lt]

theorem heapLess_true_iff (a b : QEvent) :
    heapLess a b = true ↔ a.time < b.time := by
  simp [heapLess]

/-- Go slice indexing `h[i]` (in-bounds in every use below). -/
def get (l : List QEvent) (i : ℕ) : QEvent :=
  l.getD i ⟨0, 0⟩

/-- `eventHeap.Swap(i, j)`. -/
def swapAt (l : List QEvent) (i j : ℕ) : List QEvent :=
  (l.set i (get l j)).set j (get l i)

theorem length_swapAt (l : List QEvent) (i j : ℕ) :
    (swapAt l i j).length = l.length := by
  simp [swapAt]

theorem get_eq_getElem (l : List QEvent) (i : ℕ) (h : i < l.length) :
    get l i = l[i] :=
  List.getD_eq_getElem l _ h

theorem get_swapAt_fst (l : List QEvent) (i j : ℕ) (hi : i < l.length)
    (hj : j < l.length) : get (swapAt l i j) i = get l j := by
  unfold swapAt
  have hlen : i < ((l.set i (get l j)).set j (get l i)).length := by
    simpa using hi
  rw [get_eq_getElem _ _ hlen]
  conv_rhs => rw [get_eq_getElem l j hj]
  by_cases hij : i = j
  · subst hij
    rw [List.getElem_set, if_pos rfl, get_eq_getElem _ _ hi]
  · rw [List.getElem_set, if_neg (fun h => hij h.symm), List.getElem_set,
      if_pos rfl, get_eq_getElem _ _ hj]

theorem get_swapAt_snd (l : List QEvent) (i j : ℕ) (hi : i < l.length)
    (hj : j < l.length) : get (swapAt l i j) j = get l i := by
  unfold swapAt
  have hlen : j < ((l.set i (get l j)).set j (get l i)).length := by
    simpa using hj
  rw [get_eq_getElem _ _ hlen]
  conv_rhs => rw [get_eq_getElem l i hi]
  rw [List.getElem_set, if_pos rfl, get_eq_getElem _ _ hi]

theorem get_swapAt_other (l : List QEvent) (i j k : ℕ) (hki : k ≠ i)
    (hkj : k ≠ j) : get (swapAt l i j) k = get l k := by
  unfold get swapAt
  rw [List.getD_eq_getElem?_getD, List.getD_eq_getElem?_getD,
    List.getElem?_set, List.getElem?_set]
  rw [if_neg (fun h : j = k => hkj h.symm),
    if_neg (fun h : i = k => hki h.symm)]

theorem swapAt_perm (l : List QEvent) (i j : ℕ) (hi : i < l.length)
    (hj : j < l.length) : (swapAt l i j).Perm l := by
  rw [List.perm_iff_count]
  intro x
  unfold swapAt
  have hj' : j < (l.set i (get l j)).length := by simpa using hj
  rw [List.count_set _ _ _ _ hj', List.count_set _ _ _ _ hi]
  have hset_j : (l.set i (get l j))[j] = get l j := by
    rw [List.getElem_set]
    split
    · rfl
    · exact (get_eq_getElem l j hj).symm
  rw [hset_j]
  have hgi : l[i] = get l i := (get_eq_getElem l i hi).symm
  rw [hgi]
  have hcount : (if (get l i == x) = true then 1 else 0) ≤ List.count x l := by
    split
    · next hbe =>
      have hx : get l i = x := by simpa using hbe
      have hmem : x ∈ l := by
        rw [← hx, get_eq_getElem l i hi]
        exact List.getElem_mem hi
      exact List.count_pos_iff.mpr hmem
    · exact Nat.zero_le _
  have hcount2 : (if (get l j == x) = true then 1 else 0) ≤ List.count x l := by
    split
    · next hbe =>
      have hx : get l j = x := by simpa using hbe
      have hmem : x ∈ l := by
        rw [← hx, get_eq_getElem l j hj]
        exact List.getElem_mem hj
      exact List.count_pos_iff.mpr hmem
    · exact Nat.zero_le _
  omega

/-- `container/heap`'s `up(h, j)`: while `j`'s element is strictly less
than its parent's, swap them and continue from the parent.  (At the
root, `i = (j-1)/2 = j` stops the loop, as in Go where `(0-1)/2 = 0`.) -/
def up (l : List QEvent) (j : ℕ) : List QEvent :=
  let i := (j - 1) / 2
  if i = j ∨ heapLess (get l j) (get l i) = false then l
  else up (swapAt l i j) i
termination_by j
decreasing_by
  next h =>
    push_neg at h
    omega

/-- The child `down` compares against: `j2 = 2i+2` when it is in range
and strictly earlier than `j1 = 2i+1`, else `j1`. -/
def downChild (l : List QEvent) (i n : ℕ) : ℕ :=
  if 2 * i + 2 < n ∧ heapLess (get l (2 * i + 2)) (get l (2 * i + 1)) = true
  then 2 * i + 2 else 2 * i + 1

/-- `container/heap`'s `down(h, i0, n)`: sift down inside the prefix of
length `n`, always swapping with the smaller child.  (The `j1 < 0`
overflow guard of the Go code cannot fire on ℕ.)  Go's boolean result
is unused by `Push`/`Pop` and omitted. -/
def down (l : List QEvent) (i n : ℕ) : List QEvent :=
  if n ≤ 2 * i + 1 then l
  else
    if heapLess (get l (downChild l i n)) (get l i) = false then l
    else down (swapAt l i (downChild l i n)) (downChild l i n) n
termination_by n - i
decreasing_by
  next h _ =>
    unfold downChild
    split <;> omega

/-- `heap.Push(h, x)`: `eventHeap.Push` appends, then `up(h, len-1)`. -/
def heapPush (l : List QEvent) (x : QEvent) : List QEvent :=
  up (l ++ [x]) l.length

/-- `heap.Pop(h)`: swap the root with the last element, sift the new
root down inside the shortened prefix, then `eventHeap.Pop` removes and
returns the last element.  Callers (`EventQueue.Pop`) only invoke this
on a nonempty heap; the `[]` case is unreachable (Go would panic on the
out-of-range swap). -/
def heapPopGo (l : List QEvent) : QEvent × List QEvent :=
  match l with
  | [] => (⟨0, 0⟩, [])
  | _ :: _ =>
    let n := l.length - 1
    let l' := down (swapAt l 0 n) 0 n
    (get l' n, l'.dropLast)

/-- `EventQueue.Push` (the mutex is irrelevant to the sequential
semantics). -/
def queuePush (l : List QEvent) (x : QEvent) : List QEvent :=
  heapPush l x

/-- `EventQueue.Pop`: `nil` (here `none`) on an empty queue, else
`heap.Pop`. -/
def queuePop (l : List QEvent) : Option QEvent × List QEvent :=
  if l.length = 0 then (none, l)
  else
    let r := heapPopGo l
    (some r.1, r.2)

/-- The binary-heap invariant on the prefix of length `n`: no element
is strictly earlier than its parent. -/
def IsHeapN (l : List QEvent) (n : ℕ) : Prop :=
  ∀ j, 0 < j → j < n → heapLess (get l j) (get l ((j - 1) / 2)) = false

/-- The heap invariant on the whole list. -/
def IsHeap (l : List QEvent) : Prop :=
  IsHeapN l l.length

/-- In a heap prefix the root is no later than every element. -/
theorem IsHeapN_root_min (l : List QEvent) (n : ℕ) (h : IsHeapN l n) :
    ∀ k, k < n → (get l 0).time ≤ (get l k).time := by
  intro k
  induction k using Nat.strong_induction_on with
  | _ k ih =>
    intro hk
    cases Nat.eq_zero_or_pos k with
    | inl h0 => rw [h0]
    | inr h0 =>
      have hparent := h k h0 hk
      rw [heapLess_false_iff] at hparent
      have hplt : (k - 1) / 2 < k := by omega
      have := ih ((k - 1) / 2) hplt (lt_trans hplt hk)
      linarith

/-- Precondition for `up l j`: the heap property holds at every pair
except possibly `(j, parent j)`, and `j`'s children (if any) are no
earlier than `j`'s parent. -/
def AlmostHeapUp (l : List QEvent) (j : ℕ) : Prop :=
  (∀ k, 0 < k → k < l.length → k ≠ j →
    heapLess (get l k) (get l ((k - 1) / 2)) = false) ∧
  (∀ c, 0 < c → c < l.length → (c - 1) / 2 = j → 0 < j →
    heapLess (get l c) (get l ((j - 1) / 2)) = false)

theorem up_correct (j : ℕ) : ∀ (l : List QEvent), j < l.length →
    AlmostHeapUp l j → IsHeap (up l j) ∧ (up l j).Perm l := by
  induction j using Nat.strong_induction_on with
  | _ j ih =>
    intro l hj h
    obtain ⟨h1, h2⟩ := h
    rw [up]
    by_cases hstop : (j - 1) / 2 = j ∨
        heapLess (get l j) (get l ((j - 1) / 2)) = false
    · rw [if_pos hstop]
      refine ⟨?_, List.Perm.refl l⟩
      intro k hk0 hklen
      by_cases hkj : k = j
      · subst hkj
        rcases hstop with hij | hless
        · omega
        · exact hless
      · exact h1 k hk0 hklen hkj
    · rw [if_neg hstop]
      push_neg at hstop
      obtain ⟨hine, hlessne⟩ := hstop
      have hlt : heapLess (get l j) (get l ((j - 1) / 2)) = true := by
        cases hb : heapLess (get l j) (get l ((j - 1) / 2))
        · exact absurd hb hlessne
        · rfl
      rw [heapLess_true_iff] at hlt
      have hj0 : 0 < j := by omega
      have hilt : (j - 1) / 2 < j := by omega
      have hil : (j - 1) / 2 < l.length := lt_trans hilt hj
      have hlen2 : j < (swapAt l ((j - 1) / 2) j).length := by
        rwa [length_swapAt]
      have hget_i : get (swapAt l ((j - 1) / 2) j) ((j - 1) / 2) = get l j :=
        get_swapAt_fst l _ j hil hj
    -- entries other than the two swapped positions are unchanged
      have huntouched : ∀ k, k ≠ (j - 1) / 2 → k ≠ j →
          get (swapAt l ((j - 1) / 2) j) k = get l k :=
        fun k hk1 hk2 => get_swapAt_other l _ j k hk1 hk2
      have hget_j : get (swapAt l ((j - 1) / 2) j) j = get l ((j - 1) / 2) :=
        get_swapAt_snd l _ j hil hj
      have halmost : AlmostHeapUp (swapAt l ((j - 1) / 2) j) ((j - 1) / 2) := by
        constructor
        · intro k hk0 hklen hki
          rw [length_swapAt] at hklen
          by_cases hkj : k = j
          · subst hkj
            rw [hget_j, hget_i, heapLess_false_iff]
            exact le_of_lt hlt
          · have hkent : get (swapAt l ((j - 1) / 2) j) k = get l k :=
              huntouched k hki hkj
            by_cases hpkj : (k - 1) / 2 = j
            · rw [hkent, hpkj, hget_j]
              have := h2 k hk0 hklen hpkj hj0
              exact this
            · by_cases hpki : (k - 1) / 2 = (j - 1) / 2
              · rw [hkent, hpki, hget_i, heapLess_false_iff]
                have hold := h1 k hk0 hklen hkj
                rw [heapLess_false_iff] at hold
                rw [hpki] at hold
                linarith
              · rw [hkent, huntouched _ hpki hpkj]
                exact h1 k hk0 hklen hkj
        · intro c hc0 hclen hpc hi0
          rw [length_swapAt] at hclen
          have hgp_ne_i : ((j - 1) / 2 - 1) / 2 ≠ (j - 1) / 2 := by omega
          have hgp_ne_j : ((j - 1) / 2 - 1) / 2 ≠ j := by omega
          rw [huntouched _ hgp_ne_i hgp_ne_j]
          have hii := h1 ((j - 1) / 2) hi0 hil hine
          by_cases hcj : c = j
          · subst hcj
            rw [hget_j]
            exact hii
          · have hcne_i : c ≠ (j - 1) / 2 := by omega
            rw [huntouched c hcne_i hcj, heapLess_false_iff]
            have hold := h1 c hc0 hclen hcj
            rw [heapLess_false_iff, hpc] at hold
            rw [heapLess_false_iff] at hii
            linarith
      have hres := ih ((j - 1) / 2) hilt (swapAt l ((j - 1) / 2) j)
        (by rwa [length_swapAt]) halmost
      exact ⟨hres.1, hres.2.trans (swapAt_perm l _ j hil hj)⟩

/-- Precondition for `down l i n`: the heap property holds on the
prefix of length `n` at every pair except possibly between `i` and its
children, and `i`'s children are no earlier than `i`'s parent. -/
def AlmostHeapDown (l : List QEvent) (i n : ℕ) : Prop :=
  (∀ k, 0 < k → k < n → (k - 1) / 2 ≠ i →
    heapLess (get l k) (get l ((k - 1) / 2)) = false) ∧
  (∀ c, 0 < c → c < n → (c - 1) / 2 = i → 0 < i →
    heapLess (get l c) (get l ((i - 1) / 2)) = false)

theorem downChild_cases (l : List QEvent) (i n : ℕ) :
    downChild l i n = 2 * i + 1 ∨ downChild l i n = 2 * i + 2 := by
  unfold downChild
  split
  · exact Or.inr rfl
  · exact Or.inl rfl

theorem downChild_lt (l : List QEvent) (i n : ℕ) (hn : ¬ n ≤ 2 * i + 1) :
    downChild l i n < n := by
  unfold downChild
  split
  · next h => obtain ⟨h1, _⟩ := h; omega
  · omega

theorem downChild_min (l : List QEvent) (i n : ℕ) :
    ∀ s, (s = 2 * i + 1 ∨ s = 2 * i + 2) → s < n →
    (get l (downChild l i n)).time ≤ (get l s).time := by
  intro s hs hsn
  unfold downChild
  by_cases hc : 2 * i + 2 < n ∧
      heapLess (get l (2 * i + 2)) (get l (2 * i + 1)) = true
  · rw [if_pos hc]
    rcases hs with h | h <;> subst h
    · exact le_of_lt ((heapLess_true_iff _ _).mp hc.2)
    · exact le_refl _
  · rw [if_neg hc]
    rcases hs with h | h <;> subst h
    · exact le_refl _
    · have hfalse : heapLess (get l (2 * i + 2)) (get l (2 * i + 1)) = false := by
        cases hb : heapLess (get l (2 * i + 2)) (get l (2 * i + 1))
        · rfl
        · exact absurd ⟨hsn, hb⟩ hc
      exact (heapLess_false_iff _ _).mp hfalse

theorem down_correct : ∀ (fuel : ℕ) (l : List QEvent) (i n : ℕ),
    n - i ≤ fuel → n ≤ l.length → AlmostHeapDown l i n →
    IsHeapN (down l i n) n ∧ (down l i n).Perm l ∧
      ∀ k, n ≤ k → get (down l i n) k = get l k := by
  intro fuel
  induction fuel with
  | zero =>
    intro l i n hfuel hn h
    rw [down, if_pos (by omega)]
    exact ⟨fun k hk0 hkn => h.1 k hk0 hkn (by omega),
      List.Perm.refl l, fun k _ => rfl⟩
  | succ fuel ih =>
    intro l i n hfuel hn h
    obtain ⟨h1, h2⟩ := h
    rw [down]
    by_cases hleaf : n ≤ 2 * i + 1
    · rw [if_pos hleaf]
      exact ⟨fun k hk0 hkn => h1 k hk0 hkn (by omega),
        List.Perm.refl l, fun k _ => rfl⟩
    · rw [if_neg hleaf]
      have hjc := downChild_cases l i n
      have hjn : downChild l i n < n := downChild_lt l i n hleaf
      have hmin := downChild_min l i n
      have hji : i < downChild l i n := by omega
      have hjl : downChild l i n < l.length := lt_of_lt_of_le hjn hn
      have hil : i < l.length := by omega
      by_cases hstop : heapLess (get l (downChild l i n)) (get l i) = false
      · rw [if_pos hstop]
        refine ⟨?_, List.Perm.refl l, fun k _ => rfl⟩
        intro k hk0 hkn
        by_cases hpk : (k - 1) / 2 = i
        · have hk_cases : k = 2 * i + 1 ∨ k = 2 * i + 2 := by omega
          have hge := hmin k hk_cases hkn
          rw [heapLess_false_iff] at hstop ⊢
          rw [hpk]
          linarith
        · exact h1 k hk0 hkn hpk
      · have hlt : heapLess (get l (downChild l i n)) (get l i) = true := by
          cases hb : heapLess (get l (downChild l i n)) (get l i)
          · exact absurd hb hstop
          · rfl
        rw [if_neg hstop]
        rw [heapLess_true_iff] at hlt
        set j := downChild l i n with hjdef
        have hpj : (j - 1) / 2 = i := by omega
        have huntouched : ∀ k, k ≠ i → k ≠ j → get (swapAt l i j) k = get l k :=
          fun k ha hb => get_swapAt_other l i j k ha hb
        have hgi : get (swapAt l i j) i = get l j := get_swapAt_fst l i j hil hjl
        have hgj : get (swapAt l i j) j = get l i := get_swapAt_snd l i j hil hjl
        have halmost : AlmostHeapDown (swapAt l i j) j n := by
          constructor
          · intro k hk0 hkn hpk
            by_cases hkj : k = j
            · rw [hkj, hpj, hgj, hgi, heapLess_false_iff]
              exact le_of_lt hlt
            · by_cases hki : k = i
              · have hi0 : 0 < i := hki ▸ hk0
                rw [hki]
                have hgpi_ne_i : (i - 1) / 2 ≠ i := by omega
                have hgpi_ne_j : (i - 1) / 2 ≠ j := by omega
                rw [hgi, huntouched _ hgpi_ne_i hgpi_ne_j]
                exact h2 j (by omega) hjn hpj hi0
              · by_cases hpki : (k - 1) / 2 = i
                · have hk_cases : k = 2 * i + 1 ∨ k = 2 * i + 2 := by omega
                  rw [huntouched k hki hkj, hpki, hgi, heapLess_false_iff]
                  exact hmin k hk_cases hkn
                · rw [huntouched k hki hkj, huntouched _ hpki hpk]
                  exact h1 k hk0 hkn hpki
          · intro c hc0 hcn hpc hj0
            have hcj : c ≠ j := by omega
            have hci : c ≠ i := by omega
            rw [hpj, huntouched c hci hcj, hgi]
            have hc1 := h1 c hc0 hcn (by omega)
            rw [hpc] at hc1
            exact hc1
        have hres := ih (swapAt l i j) j n (by omega)
          (by rwa [length_swapAt]) halmost
        refine ⟨hres.1, hres.2.1.trans (swapAt_perm l i j hil hjl), ?_⟩
        intro k hk
        rw [hres.2.2 k hk, huntouched k (by omega) (by omega)]

theorem get_append_lt (l l' : List QEvent) (k : ℕ) (h : k < l.length) :
    get (l ++ l') k = get l k :=
  List.getD_append l l' _ k h

theorem get_dropLast (l : List QEvent) (k : ℕ)
    (h : k < l.dropLast.length) : get l.dropLast k = get l k := by
  have h' : k < l.length := by
    have hd := List.length_dropLast l
    omega
  rw [get_eq_getElem _ _ h, get_eq_getElem _ _ h', List.getElem_dropLast]

/-- `heap.Push` preserves the heap invariant and adds exactly the
pushed element. -/
theorem heapPush_spec (l : List QEvent) (x : QEvent) (h : IsHeap l) :
    IsHeap (heapPush l x) ∧ (heapPush l x).Perm (x :: l) := by
  unfold heapPush
  have hlen : l.length < (l ++ [x]).length := by simp
  have halmost : AlmostHeapUp (l ++ [x]) l.length := by
    constructor
    · intro k hk0 hklen hkne
      have hk : k < l.length := by
        simp only [List.length_append, List.length_singleton] at hklen
        omega
      have hpk : (k - 1) / 2 < l.length := by omega
      rw [get_append_lt _ _ _ hk, get_append_lt _ _ _ hpk]
      exact h k hk0 hk
    · intro c hc0 hclen hpc _
      simp only [List.length_append, List.length_singleton] at hclen
      omega
  have hres := up_correct l.length (l ++ [x]) hlen halmost
  exact ⟨hres.1, hres.2.trans (List.perm_append_singleton x l)⟩

/-- `EventQueue.Pop` on a nonempty heap returns the root — an event of
minimal timestamp — removes exactly that occurrence, and leaves a
heap. -/
theorem queuePop_spec (l : List QEvent) (h : IsHeap l) (hne : l ≠ []) :
    ∃ e l', queuePop l = (some e, l') ∧ IsHeap l' ∧
      (∀ x ∈ l, e.time ≤ x.time) ∧ l.Perm (e :: l') := by
  have hlen0 : 0 < l.length := List.length_pos.mpr hne
  have hn : l.length - 1 < l.length := by omega
  set n := l.length - 1 with hndef
  set l1 := swapAt l 0 n with hl1def
  have hlen1 : l1.length = l.length := length_swapAt l 0 n
  have halmost : AlmostHeapDown l1 0 n := by
    constructor
    · intro k hk0 hkn hpk
      have hki : k ≠ 0 := by omega
      have hkn' : k ≠ n := by omega
      have hpki : (k - 1) / 2 ≠ 0 := hpk
      have hpkn : (k - 1) / 2 ≠ n := by omega
      rw [get_swapAt_other l 0 n k hki hkn',
        get_swapAt_other l 0 n _ hpki hpkn]
      exact h k hk0 (by omega)
    · intro c _ _ _ h0
      exact absurd h0 (lt_irrefl 0)
  have hres := down_correct n l1 0 n (by omega) (by omega) halmost
  set l2 := down l1 0 n with hl2def
  have hlen2 : l2.length = l.length := by
    rw [hres.2.1.length_eq, hlen1]
  have hroot : get l2 n = get l 0 := by
    rw [hres.2.2 n (le_refl n)]
    exact get_swapAt_snd l 0 n hlen0 hn
  have hpop : queuePop l = (some (get l2 n), l2.dropLast) := by
    unfold queuePop heapPopGo
    cases l with
    | nil => exact absurd rfl hne
    | cons a as =>
      rw [if_neg (show ¬ (a :: as).length = 0 by simp)]
  have hl2ne : l2 ≠ [] := by
    intro hcontra
    rw [hcontra] at hlen2
    simp at hlen2
    omega
  refine ⟨get l2 n, l2.dropLast, hpop, ?_, ?_, ?_⟩
  · intro j hj0 hjlen
    have hdl : l2.dropLast.length = n := by
      simp [List.length_dropLast, hlen2]
    rw [hdl] at hjlen
    have hj2 : j < l2.dropLast.length := by rw [hdl]; exact hjlen
    have hpj2 : (j - 1) / 2 < l2.dropLast.length := by rw [hdl]; omega
    rw [get_dropLast _ _ hj2, get_dropLast _ _ hpj2]
    exact hres.1 j hj0 hjlen
  · intro x hx
    rw [hroot]
    obtain ⟨k, hk, hkx⟩ := List.mem_iff_getElem.mp hx
    rw [← hkx, ← get_eq_getElem l k hk]
    exact IsHeapN_root_min l l.length h k hk
  · have hsplit : l2.dropLast ++ [l2.getLast hl2ne] = l2 :=
      List.dropLast_append_getLast hl2ne
    have hlast : l2.getLast hl2ne = get l2 n := by
      rw [List.getLast_eq_getElem, get_eq_getElem l2 n (by omega)]
      congr 1
      omega
    have hperm2 : l2.Perm (get l2 n :: l2.dropLast) := by
      conv_lhs => rw [← hsplit, hlast]
      exact List.perm_append_singleton _ _
    exact ((hres.2.1.trans (swapAt_perm l 0 n hlen0 hn)).symm).trans hperm2

/-- The queue states reachable from the empty queue by `Push`/`Pop`
(the only operations that mutate the queue). -/
inductive Reachable : List QEvent → Prop
  | empty : Reachable []
  | push (x : QEvent) {l : List QEvent} :
      Reachable l → Reachable (queuePush l x)
  | pop {l : List QEvent} : Reachable l → Reachable (queuePop l).2

/-- Every reachable queue satisfies the heap invariant. -/
theorem Reachable_isHeap (l : List QEvent) (hr : Reachable l) : IsHeap l := by
  induction hr with
  | empty =>
    intro j hj0 hjlen
    simp at hjlen
  | push x hl ih => exact (heapPush_spec _ x ih).1
  | @pop l' hl ih =>
    by_cases hne : l' = []
    · subst hne
      exact ih
    · obtain ⟨e, l2, heq, hheap, _, _⟩ := queuePop_spec l' ih hne
      rw [heq]
      exact hheap

/-- C7.  On every queue reachable by a sequence of Push and Pop
operations: Pop of an empty queue returns the `nil` sentinel and
leaves the queue unchanged; Pop of a nonempty queue removes and
returns an event whose timestamp is earliest among the events
currently in the queue (the original content is a permutation of the
returned event plus the remaining queue). -/
theorem c7_queue_pop_earliest (l : List QEvent) (hr : Reachable l) :
    (l = [] → queuePop l = (none, l)) ∧
    (l ≠ [] → ∃ e l', queuePop l = (some e, l') ∧
      (∀ x ∈ l, e.time ≤ x.time) ∧ l.Perm (e :: l')) := by
  have hh := Reachable_isHeap l hr
  constructor
  · intro h
    subst h
    rfl
  · intro hne
    obtain ⟨e, l', heq, _, hmin, hperm⟩ := queuePop_spec l hh hne
    exact ⟨e, l', heq, hmin, hperm⟩

/-- Concrete queue for the C7 witness: three pushes. -/
def qW : List QEvent :=
  queuePush (queuePush (queuePush [] ⟨5, 0⟩) ⟨3, 1⟩) ⟨7, 2⟩

theorem c7_witness :
    qW ≠ [] ∧
      ∃ e l', queuePop qW = (some e, l') ∧
        (∀ x ∈ qW, e.time ≤ x.time) ∧ qW.Perm (e :: l') := by
  have hr : Reachable qW :=
    Reachable.push ⟨7, 2⟩ (Reachable.push ⟨3, 1⟩
      (Reachable.push ⟨5, 0⟩ Reachable.empty))
  have hinner : IsHeap (queuePush (queuePush [] ⟨5, 0⟩) ⟨3, 1⟩) :=
    Reachable_isHeap _
      (Reachable.push ⟨3, 1⟩ (Reachable.push ⟨5, 0⟩ Reachable.empty))
  have hp : qW.Perm (⟨7, 2⟩ :: queuePush (queuePush [] ⟨5, 0⟩) ⟨3, 1⟩) :=
    (heapPush_spec _ ⟨7, 2⟩ hinner).2
  have hne : qW ≠ [] := by
    intro h
    rw [h] at hp
    simpa using hp.length_eq
  exact ⟨hne, (c7_queue_pop_earliest qW hr).2 hne⟩

end ACC
